import Mathlib

/-!
Verification of the binned joint/marginal statistics engine of the
monsoon-pod repository (notebook `V2_4_calc_save_binned_stats.ipynb`
and its earlier checkpoint `3_copy_calc_save_stats-checkpoint.ipynb`).

Floating-point scalars are embedded as exact rationals; a possibly
non-finite precipitation value is an `Option ℚ` (`none` = NaN/Inf), so
`np.isfinite` becomes `Option.isSome`.  NumPy `astype(int)` conversion
is truncation toward zero, embedded as `truncQ`.  Array accesses are
embedded as `Option`-valued reads/writes so out-of-bounds access is
observable.
-/

namespace MonsoonPod

/-- Binning parameters of one variable, mirroring the
`BINPARAMS[key] = {'min':…, 'max':…, 'width':…}` dictionaries. -/
structure BinParams where
  min : ℚ
  max : ℚ
  width : ℚ
deriving DecidableEq

/-- Truncation toward zero, the conversion a NumPy `astype` of a float
to an integer type performs (for values representable in the target). -/
def truncQ (q : ℚ) : Int := if 0 ≤ q then ⌊q⌋ else ⌈q⌉

/-- `np.arange(start, stop, step)` over exact rationals: the values
`start + k*step` for `k = 0, …, ⌈(stop-start)/step⌉ - 1`. -/
def arange (start stop step : ℚ) : List ℚ :=
  (List.range (⌈(stop - start) / step⌉.toNat)).map (fun k : Nat => start + (k : ℚ) * step)

/-- `get_bin_edges`: `np.arange(min, max+width, width)` for one
variable's bin parameters. -/
def get_bin_edges (bp : BinParams) : List ℚ :=
  arange bp.min (bp.max + bp.width) bp.width

/-- The 1-D (`bl`) index computation of `calc_binned_stats`:
`((bl - min)/width + 0.5).astype(np.int32)` (Policy A). -/
def blidxOf (bp : BinParams) (v : ℚ) : Int :=
  truncQ ((v - bp.min) / bp.width + 1/2)

/-- The `cape` index computation of `calc_binned_stats`:
`((cape - min)/width - 0.5).astype(np.int32)` (Policy B). -/
def capeidxOf (bp : BinParams) (v : ℚ) : Int :=
  truncQ ((v - bp.min) / bp.width - 1/2)

/-- The `subsat` index computation of `calc_binned_stats`:
`((subsat - min)/width - 0.5).astype(np.int32)` (Policy B). -/
def subsatidxOf (bp : BinParams) (v : ℚ) : Int :=
  truncQ ((v - bp.min) / bp.width - 1/2)

/-- One space-time point as seen by the accumulation kernel
`fast_binned_stats`: the three precomputed bin indices and the
precipitation value (`none` = non-finite). -/
structure Point where
  blidx : Int
  capeidx : Int
  subsatidx : Int
  prval : Option ℚ
deriving DecidableEq

/-- The six accumulator arrays returned by `fast_binned_stats`:
1-D arrays `Q0`, `QE`, `Q1` over `bl` bins and 2-D arrays `P0`, `PE`,
`P1` over (`subsat`, `cape`) cells (outer index `subsat`). -/
structure Stats where
  Q0 : List ℚ
  QE : List ℚ
  Q1 : List ℚ
  P0 : List (List ℚ)
  PE : List (List ℚ)
  P1 : List (List ℚ)
deriving DecidableEq

/-- Read-modify-write `xs[i] += d` at a (possibly negative) integer
index, `none` when the access is out of bounds. -/
def addAt (xs : List ℚ) (i : Int) (d : ℚ) : Option (List ℚ) :=
  if 0 ≤ i then (xs[i.toNat]?).map (fun old => xs.set i.toNat (old + d)) else none

/-- Read-modify-write `xss[i][j] += d` on a 2-D array, `none` when
either index is out of bounds. -/
def addAt2 (xss : List (List ℚ)) (i j : Int) (d : ℚ) : Option (List (List ℚ)) :=
  if 0 ≤ i then
    (xss[i.toNat]?).bind (fun row => (addAt row j d).map (fun row' => xss.set i.toNat row'))
  else none

/-- The 1-D half of the loop body of `fast_binned_stats`:
`if 0<=blidx<nblbins and np.isfinite(prval): Q0[blidx] += 1;
Q1[blidx] += prval; if prval>prthresh: QE[blidx] += 1`. -/
def stepBL (nblbins : Nat) (prthresh : ℚ) (s : Stats) (p : Point) : Option Stats :=
  match p.prval with
  | some prval =>
    if 0 ≤ p.blidx ∧ p.blidx < (nblbins : Int) then do
      let q0 ← addAt s.Q0 p.blidx 1
      let q1 ← addAt s.Q1 p.blidx prval
      let qe ← if prthresh < prval then addAt s.QE p.blidx 1 else pure s.QE
      pure { s with Q0 := q0, Q1 := q1, QE := qe }
    else pure s
  | none => pure s

/-- The 2-D half of the loop body of `fast_binned_stats`:
`if 0<=subsatidx<nsubsatbins and 0<=capeidx<ncapebins and
np.isfinite(prval): P0[subsatidx,capeidx] += 1; …`. -/
def step2D (ncapebins nsubsatbins : Nat) (prthresh : ℚ) (s : Stats) (p : Point) : Option Stats :=
  match p.prval with
  | some prval =>
    if (0 ≤ p.subsatidx ∧ p.subsatidx < (nsubsatbins : Int)) ∧
        (0 ≤ p.capeidx ∧ p.capeidx < (ncapebins : Int)) then do
      let p0 ← addAt2 s.P0 p.subsatidx p.capeidx 1
      let p1 ← addAt2 s.P1 p.subsatidx p.capeidx prval
      let pe ← if prthresh < prval then addAt2 s.PE p.subsatidx p.capeidx 1 else pure s.PE
      pure { s with P0 := p0, P1 := p1, PE := pe }
    else pure s
  | none => pure s

/-- The body of the `for i in range(prdata.size)` loop of
`fast_binned_stats` for one point: the guarded 1-D update followed by
the guarded 2-D update. -/
def stepPoint (nblbins ncapebins nsubsatbins : Nat) (prthresh : ℚ) (s : Stats) (p : Point) :
    Option Stats :=
  (stepBL nblbins prthresh s p).bind (fun s1 => step2D ncapebins nsubsatbins prthresh s1 p)

/-- A fresh 1-D accumulator array, `np.zeros(n)`. -/
def zeros1 (n : Nat) : List ℚ := List.replicate n 0

/-- A fresh 2-D accumulator array, `np.zeros((n, m))`. -/
def zeros2 (n m : Nat) : List (List ℚ) := List.replicate n (List.replicate m 0)

/-- The accelerated single-pass kernel `fast_binned_stats`: starting
from zeroed accumulators of the given sizes, fold the per-point update
over the flattened point sequence. -/
def fast_binned_stats (pts : List Point) (nblbins ncapebins nsubsatbins : Nat)
    (prthresh : ℚ) : Option Stats :=
  pts.foldlM (stepPoint nblbins ncapebins nsubsatbins prthresh)
    { Q0 := zeros1 nblbins, QE := zeros1 nblbins, Q1 := zeros1 nblbins,
      P0 := zeros2 nsubsatbins ncapebins, PE := zeros2 nsubsatbins ncapebins,
      P1 := zeros2 nsubsatbins ncapebins }

/-! Specification-side definitions (following the spec's words, §4.3):
which points contribute to which accumulator cells. -/

/-- A point contributes to 1-D bin `i` iff its `bl` index equals `i`
and its precipitation value is finite. -/
def inBinBL (i : Nat) (p : Point) : Bool :=
  p.blidx == (i : Int) && p.prval.isSome

/-- A point is an exceedance iff its precipitation value is finite and
strictly greater than the threshold. -/
def isExceed (prthresh : ℚ) (p : Point) : Bool :=
  match p.prval with
  | some v => decide (prthresh < v)
  | none => false

/-- A point contributes to 2-D cell `(a, b)` (subsat row `a`, cape
column `b`) iff both its 2-D indices match and its precipitation value
is finite. -/
def inCell (a b : Nat) (p : Point) : Bool :=
  p.subsatidx == (a : Int) && (p.capeidx == (b : Int) && p.prval.isSome)

/-- The precipitation value of a point, `0` for a non-finite one (used
only where finiteness is already required). -/
def valOf (p : Point) : ℚ := p.prval.getD 0

/-- Spec value of `Q0[i]`: the number of contributing points. -/
def Q0spec (pts : List Point) (i : Nat) : ℚ := (pts.countP (inBinBL i) : ℚ)

/-- Spec value of `QE[i]`: the number of contributing points above the
threshold. -/
def QEspec (prthresh : ℚ) (pts : List Point) (i : Nat) : ℚ :=
  (pts.countP (fun p => inBinBL i p && isExceed prthresh p) : ℚ)

/-- Spec value of `Q1[i]`: the sum of contributing points' values. -/
def Q1spec (pts : List Point) (i : Nat) : ℚ :=
  ((pts.filter (inBinBL i)).map valOf).sum

/-- Spec value of `P0[a][b]`. -/
def P0spec (pts : List Point) (a b : Nat) : ℚ := (pts.countP (inCell a b) : ℚ)

/-- Spec value of `PE[a][b]`. -/
def PEspec (prthresh : ℚ) (pts : List Point) (a b : Nat) : ℚ :=
  (pts.countP (fun p => inCell a b p && isExceed prthresh p) : ℚ)

/-- Spec value of `P1[a][b]`. -/
def P1spec (pts : List Point) (a b : Nat) : ℚ :=
  ((pts.filter (inCell a b)).map valOf).sum

/-- The whole `Stats` record the spec predicts for a run of
`fast_binned_stats`. -/
def statsSpec (pts : List Point) (nblbins ncapebins nsubsatbins : Nat)
    (prthresh : ℚ) : Stats where
  Q0 := (List.range nblbins).map (Q0spec pts)
  QE := (List.range nblbins).map (QEspec prthresh pts)
  Q1 := (List.range nblbins).map (Q1spec pts)
  P0 := (List.range nsubsatbins).map (fun a => (List.range ncapebins).map (P0spec pts a))
  PE := (List.range nsubsatbins).map (fun a => (List.range ncapebins).map (PEspec prthresh pts a))
  P1 := (List.range nsubsatbins).map (fun a => (List.range ncapebins).map (P1spec pts a))

/-- Entry `(a, b)` of a 2-D accumulator (row `a`, column `b`), with
default `0` out of bounds. -/
def getD2 (xss : List (List ℚ)) (a b : Nat) : ℚ := (xss.getD a []).getD b 0

/-- A 2-D accumulator has `ns` rows, each of length `nc`. -/
def ShapeP (ns nc : Nat) (xss : List (List ℚ)) : Prop :=
  xss.length = ns ∧ ∀ a, a < ns → (xss.getD a []).length = nc

/-- All six accumulators of a `Stats` record have the sizes
`fast_binned_stats` allocates. -/
def Shape (nblbins ncapebins nsubsatbins : Nat) (s : Stats) : Prop :=
  s.Q0.length = nblbins ∧ s.QE.length = nblbins ∧ s.Q1.length = nblbins ∧
  ShapeP nsubsatbins ncapebins s.P0 ∧ ShapeP nsubsatbins ncapebins s.PE ∧
  ShapeP nsubsatbins ncapebins s.P1

lemma getD_of_lt {α : Type} (xs : List α) (d : α) (n : Nat) (h : n < xs.length) :
    xs.getD n d = xs[n] := by
  simp [List.getD_eq_getElem?_getD, List.getElem?_eq_getElem h]

lemma getD_set_self {α : Type} (xs : List α) (d : α) (k : Nat) (v : α) (hk : k < xs.length) :
    (xs.set k v).getD k d = v := by
  simp [List.getD_eq_getElem?_getD, List.getElem?_set_self hk]

lemma getD_set_ne {α : Type} (xs : List α) (d : α) (k j : Nat) (v : α) (hkj : j ≠ k) :
    (xs.set k v).getD j d = xs.getD j d := by
  simp [List.getD_eq_getElem?_getD, List.getElem?_set_ne (fun h => hkj h.symm)]

lemma addAt_eq_some (xs : List ℚ) (i : Int) (d : ℚ) (h0 : 0 ≤ i) (hl : i.toNat < xs.length) :
    addAt xs i d = some (xs.set i.toNat (xs.getD i.toNat 0 + d)) := by
  simp [addAt, h0, List.getElem?_eq_getElem hl, getD_of_lt _ _ _ hl]

lemma getD_set_add (xs : List ℚ) (k : Nat) (d : ℚ) (j : Nat) (hk : k < xs.length) :
    (xs.set k (xs.getD k 0 + d)).getD j 0 = xs.getD j 0 + (if j = k then d else 0) := by
  by_cases hj : j = k
  · subst hj; rw [getD_set_self _ _ _ _ hk, if_pos rfl]
  · rw [getD_set_ne _ _ _ _ _ hj, if_neg hj, add_zero]

lemma addAt2_eq_some (xss : List (List ℚ)) (i j : Int) (d : ℚ) (h0i : 0 ≤ i) (h0j : 0 ≤ j)
    (hli : i.toNat < xss.length) (hlj : j.toNat < (xss.getD i.toNat []).length) :
    addAt2 xss i j d =
      some (xss.set i.toNat
        ((xss.getD i.toNat []).set j.toNat (getD2 xss i.toNat j.toNat + d))) := by
  have hrow : xss[i.toNat]? = some (xss.getD i.toNat []) := by
    rw [getD_of_lt _ _ _ hli, List.getElem?_eq_getElem hli]
  rw [addAt2, if_pos h0i, hrow]
  show (addAt (xss.getD i.toNat []) j d).map _ = _
  rw [addAt_eq_some _ _ _ h0j hlj]
  rfl

lemma getD2_set_add (xss : List (List ℚ)) (ka kb : Nat) (d : ℚ) (a b : Nat)
    (hka : ka < xss.length) (hkb : kb < (xss.getD ka []).length) :
    getD2 (xss.set ka ((xss.getD ka []).set kb (getD2 xss ka kb + d))) a b =
      getD2 xss a b + (if a = ka ∧ b = kb then d else 0) := by
  by_cases ha : a = ka
  · subst ha
    rw [getD2, getD_set_self _ _ _ _ hka]
    by_cases hb : b = kb
    · subst hb
      rw [getD_set_self _ _ _ _ hkb, if_pos ⟨rfl, rfl⟩, getD2]
    · rw [getD_set_ne _ _ _ _ _ hb, if_neg (fun h => hb h.2), add_zero, getD2]
  · rw [getD2, getD_set_ne _ _ _ _ _ ha, if_neg (fun h => ha h.1), add_zero, getD2]

lemma shapeP_set (ns nc : Nat) (xss : List (List ℚ)) (k : Nat) (r : List ℚ)
    (hs : ShapeP ns nc xss) (hr : r.length = nc) : ShapeP ns nc (xss.set k r) := by
  refine ⟨by rw [List.length_set, hs.1], fun a ha => ?_⟩
  by_cases hak : a = k
  · subst hak
    by_cases hk : a < xss.length
    · rw [getD_set_self _ _ _ _ hk, hr]
    · rw [List.set_eq_of_length_le (by omega)]
      exact hs.2 a ha
  · rw [getD_set_ne _ _ _ _ _ hak]
    exact hs.2 a ha

lemma stepBL_spec (nbl : Nat) (thr : ℚ) (s : Stats) (p : Point)
    (h0 : s.Q0.length = nbl) (hE : s.QE.length = nbl) (h1 : s.Q1.length = nbl) :
    ∃ s', stepBL nbl thr s p = some s' ∧
      s'.Q0.length = nbl ∧ s'.QE.length = nbl ∧ s'.Q1.length = nbl ∧
      s'.P0 = s.P0 ∧ s'.PE = s.PE ∧ s'.P1 = s.P1 ∧
      (∀ i, i < nbl → s'.Q0.getD i 0 = s.Q0.getD i 0 + (if inBinBL i p then 1 else 0)) ∧
      (∀ i, i < nbl → s'.QE.getD i 0 =
        s.QE.getD i 0 + (if inBinBL i p && isExceed thr p then 1 else 0)) ∧
      (∀ i, i < nbl → s'.Q1.getD i 0 = s.Q1.getD i 0 + (if inBinBL i p then valOf p else 0)) := by
  cases hp : p.prval with
  | none =>
    refine ⟨s, by simp [stepBL, hp], h0, hE, h1, rfl, rfl, rfl, ?_, ?_, ?_⟩ <;>
      (intro i hi; simp [inBinBL, hp])
  | some v =>
    by_cases hg : 0 ≤ p.blidx ∧ p.blidx < (nbl : Int)
    · have hk0 : p.blidx.toNat < s.Q0.length := by omega
      have hkE : p.blidx.toNat < s.QE.length := by omega
      have hk1 : p.blidx.toNat < s.Q1.length := by omega
      have hbin : ∀ i : Nat, inBinBL i p = decide (i = p.blidx.toNat) := by
        intro i
        simp only [inBinBL, hp, Option.isSome_some, Bool.and_true]
        by_cases hik : i = p.blidx.toNat
        · subst hik; simp; omega
        · have : p.blidx ≠ (i : Int) := by omega
          simp [this, hik]
      refine ⟨{ s with
          Q0 := s.Q0.set p.blidx.toNat (s.Q0.getD p.blidx.toNat 0 + 1),
          Q1 := s.Q1.set p.blidx.toNat (s.Q1.getD p.blidx.toNat 0 + v),
          QE := if thr < v then s.QE.set p.blidx.toNat (s.QE.getD p.blidx.toNat 0 + 1)
                else s.QE }, ?_, ?_, ?_, ?_, rfl, rfl, rfl, ?_, ?_, ?_⟩
      · simp only [stepBL, hp]
        rw [if_pos hg, addAt_eq_some _ _ _ hg.1 hk0, addAt_eq_some _ _ _ hg.1 hk1]
        by_cases hth : thr < v
        · simp only [if_pos hth, addAt_eq_some _ _ _ hg.1 hkE]
          rfl
        · simp only [if_neg hth]
          rfl
      · simp [h0]
      · by_cases hth : thr < v
        · simp [hth, hE]
        · simp [hth, hE]
      · simp [h1]
      · intro i hi
        rw [getD_set_add _ _ _ _ hk0, hbin i]
        by_cases hik : i = p.blidx.toNat <;> simp [hik]
      · intro i hi
        have hex : isExceed thr p = decide (thr < v) := by simp [isExceed, hp]
        by_cases hth : thr < v
        · rw [if_pos hth, getD_set_add _ _ _ _ hkE, hbin i, hex]
          by_cases hik : i = p.blidx.toNat <;> simp [hik, hth]
        · rw [if_neg hth, hbin i, hex]
          simp [hth]
      · intro i hi
        rw [getD_set_add _ _ _ _ hk1, hbin i]
        have hv : valOf p = v := by simp [valOf, hp]
        by_cases hik : i = p.blidx.toNat <;> simp [hik, hv]
    · have hbin : ∀ i : Nat, i < nbl → inBinBL i p = false := by
        intro i hi
        simp only [inBinBL, hp, Option.isSome_some, Bool.and_true, beq_eq_false_iff_ne]
        push_neg at hg
        omega
      refine ⟨s, by simp [stepBL, hp, hg], h0, hE, h1, rfl, rfl, rfl, ?_, ?_, ?_⟩ <;>
        (intro i hi; simp [hbin i hi])

lemma ite_eq_of_iff {A : Prop} [Decidable A] {b : Bool} (h : b = true ↔ A) (x y : ℚ) :
    (if b then x else y) = (if A then x else y) := by
  by_cases hA : A
  · rw [if_pos (h.mpr hA), if_pos hA]
  · rw [if_neg (fun hb => hA (h.mp hb)), if_neg hA]

lemma step2D_spec (nc ns : Nat) (thr : ℚ) (s : Stats) (p : Point)
    (h0 : ShapeP ns nc s.P0) (hE : ShapeP ns nc s.PE) (h1 : ShapeP ns nc s.P1) :
    ∃ s', step2D nc ns thr s p = some s' ∧
      ShapeP ns nc s'.P0 ∧ ShapeP ns nc s'.PE ∧ ShapeP ns nc s'.P1 ∧
      s'.Q0 = s.Q0 ∧ s'.QE = s.QE ∧ s'.Q1 = s.Q1 ∧
      (∀ a b, a < ns → b < nc →
        getD2 s'.P0 a b = getD2 s.P0 a b + (if inCell a b p then 1 else 0)) ∧
      (∀ a b, a < ns → b < nc →
        getD2 s'.PE a b = getD2 s.PE a b + (if inCell a b p && isExceed thr p then 1 else 0)) ∧
      (∀ a b, a < ns → b < nc →
        getD2 s'.P1 a b = getD2 s.P1 a b + (if inCell a b p then valOf p else 0)) := by
  obtain ⟨h0l, h0r⟩ := h0
  obtain ⟨hEl, hEr⟩ := hE
  obtain ⟨h1l, h1r⟩ := h1
  cases hp : p.prval with
  | none =>
    refine ⟨s, by simp [step2D, hp], ⟨h0l, h0r⟩, ⟨hEl, hEr⟩, ⟨h1l, h1r⟩,
      rfl, rfl, rfl, ?_, ?_, ?_⟩ <;>
      (intro a b ha hb; simp [inCell, hp])
  | some v =>
    by_cases hg : (0 ≤ p.subsatidx ∧ p.subsatidx < (ns : Int)) ∧
        (0 ≤ p.capeidx ∧ p.capeidx < (nc : Int))
    · have hs0 : p.subsatidx.toNat < s.P0.length := by omega
      have hsE : p.subsatidx.toNat < s.PE.length := by omega
      have hs1 : p.subsatidx.toNat < s.P1.length := by omega
      have hsns : p.subsatidx.toNat < ns := by omega
      have hc0 : p.capeidx.toNat < (s.P0.getD p.subsatidx.toNat []).length := by
        rw [h0r p.subsatidx.toNat hsns]; omega
      have hcE : p.capeidx.toNat < (s.PE.getD p.subsatidx.toNat []).length := by
        rw [hEr p.subsatidx.toNat hsns]; omega
      have hc1 : p.capeidx.toNat < (s.P1.getD p.subsatidx.toNat []).length := by
        rw [h1r p.subsatidx.toNat hsns]; omega
      have hcell : ∀ a b : Nat,
          (inCell a b p = true) ↔ (a = p.subsatidx.toNat ∧ b = p.capeidx.toNat) := by
        intro a b
        simp only [inCell, hp, Option.isSome_some, Bool.and_true, Bool.and_eq_true, beq_iff_eq]
        omega
      have hexi : (isExceed thr p = true) ↔ thr < v := by
        simp [isExceed, hp]
      refine ⟨{ s with
          P0 := s.P0.set p.subsatidx.toNat
            ((s.P0.getD p.subsatidx.toNat []).set p.capeidx.toNat
              (getD2 s.P0 p.subsatidx.toNat p.capeidx.toNat + 1)),
          P1 := s.P1.set p.subsatidx.toNat
            ((s.P1.getD p.subsatidx.toNat []).set p.capeidx.toNat
              (getD2 s.P1 p.subsatidx.toNat p.capeidx.toNat + v)),
          PE := if thr < v then
              s.PE.set p.subsatidx.toNat
                ((s.PE.getD p.subsatidx.toNat []).set p.capeidx.toNat
                  (getD2 s.PE p.subsatidx.toNat p.capeidx.toNat + 1))
            else s.PE }, ?_, ?_, ?_, ?_, rfl, rfl, rfl, ?_, ?_, ?_⟩
      · simp only [step2D, hp]
        rw [if_pos hg]
        simp only [addAt2_eq_some s.P0 _ _ _ hg.1.1 hg.2.1 hs0 hc0,
          addAt2_eq_some s.P1 _ _ _ hg.1.1 hg.2.1 hs1 hc1]
        by_cases hth : thr < v
        · simp only [if_pos hth, addAt2_eq_some s.PE _ _ _ hg.1.1 hg.2.1 hsE hcE]
          rfl
        · simp only [if_neg hth]
          rfl
      · exact shapeP_set _ _ _ _ _ ⟨h0l, h0r⟩ (by rw [List.length_set, h0r _ hsns])
      · by_cases hth : thr < v
        · simp only [if_pos hth]
          exact shapeP_set _ _ _ _ _ ⟨hEl, hEr⟩ (by rw [List.length_set, hEr _ hsns])
        · simp only [if_neg hth]
          exact ⟨hEl, hEr⟩
      · exact shapeP_set _ _ _ _ _ ⟨h1l, h1r⟩ (by rw [List.length_set, h1r _ hsns])
      · intro a b ha hb
        rw [getD2_set_add _ _ _ _ _ _ hs0 hc0, ite_eq_of_iff (hcell a b)]
      · intro a b ha hb
        have hcombo : ((inCell a b p && isExceed thr p) = true) ↔
            ((a = p.subsatidx.toNat ∧ b = p.capeidx.toNat) ∧ thr < v) := by
          rw [Bool.and_eq_true]
          exact and_congr (hcell a b) hexi
        by_cases hth : thr < v
        · simp only [if_pos hth]
          rw [getD2_set_add _ _ _ _ _ _ hsE hcE, ite_eq_of_iff hcombo]
          by_cases hab : a = p.subsatidx.toNat ∧ b = p.capeidx.toNat
          · rw [if_pos hab, if_pos ⟨hab, hth⟩]
          · rw [if_neg hab, if_neg (fun h => hab h.1)]
        · simp only [if_neg hth]
          rw [ite_eq_of_iff hcombo, if_neg (fun h => hth h.2), add_zero]
      · intro a b ha hb
        have hv : valOf p = v := by simp [valOf, hp]
        rw [getD2_set_add _ _ _ _ _ _ hs1 hc1, ite_eq_of_iff (hcell a b), hv]
    · have hcell : ∀ a b : Nat, a < ns → b < nc → inCell a b p = false := by
        intro a b ha hb
        rw [Bool.eq_false_iff]
        intro hc
        have := ((by
          simpa only [inCell, hp, Option.isSome_some, Bool.and_true, Bool.and_eq_true,
            beq_iff_eq] using hc) : p.subsatidx = (a : Int) ∧ p.capeidx = (b : Int))
        exact hg ⟨⟨by omega, by omega⟩, ⟨by omega, by omega⟩⟩
      refine ⟨s, by simp [step2D, hp, hg], ⟨h0l, h0r⟩, ⟨hEl, hEr⟩, ⟨h1l, h1r⟩,
        rfl, rfl, rfl, ?_, ?_, ?_⟩ <;>
        (intro a b ha hb; simp [hcell a b ha hb])

lemma Q0spec_cons (p : Point) (l : List Point) (i : Nat) :
    Q0spec (p :: l) i = Q0spec l i + (if inBinBL i p then 1 else 0) := by
  rw [Q0spec, Q0spec, List.countP_cons, Nat.cast_add]
  congr 1
  split <;> simp

lemma QEspec_cons (thr : ℚ) (p : Point) (l : List Point) (i : Nat) :
    QEspec thr (p :: l) i =
      QEspec thr l i + (if inBinBL i p && isExceed thr p then 1 else 0) := by
  rw [QEspec, QEspec, List.countP_cons, Nat.cast_add]
  congr 1
  split <;> simp_all

lemma Q1spec_cons (p : Point) (l : List Point) (i : Nat) :
    Q1spec (p :: l) i = Q1spec l i + (if inBinBL i p then valOf p else 0) := by
  rw [Q1spec, Q1spec, List.filter_cons]
  by_cases h : inBinBL i p
  · rw [if_pos h, if_pos h, List.map_cons, List.sum_cons, add_comm]
  · rw [if_neg h, if_neg h, add_zero]

lemma P0spec_cons (p : Point) (l : List Point) (a b : Nat) :
    P0spec (p :: l) a b = P0spec l a b + (if inCell a b p then 1 else 0) := by
  rw [P0spec, P0spec, List.countP_cons, Nat.cast_add]
  congr 1
  split <;> simp

lemma PEspec_cons (thr : ℚ) (p : Point) (l : List Point) (a b : Nat) :
    PEspec thr (p :: l) a b =
      PEspec thr l a b + (if inCell a b p && isExceed thr p then 1 else 0) := by
  rw [PEspec, PEspec, List.countP_cons, Nat.cast_add]
  congr 1
  split <;> simp_all

lemma P1spec_cons (p : Point) (l : List Point) (a b : Nat) :
    P1spec (p :: l) a b = P1spec l a b + (if inCell a b p then valOf p else 0) := by
  rw [P1spec, P1spec, List.filter_cons]
  by_cases h : inCell a b p
  · rw [if_pos h, if_pos h, List.map_cons, List.sum_cons, add_comm]
  · rw [if_neg h, if_neg h, add_zero]

lemma stepPoint_spec (nbl nc ns : Nat) (thr : ℚ) (s : Stats) (p : Point)
    (hs : Shape nbl nc ns s) :
    ∃ s', stepPoint nbl nc ns thr s p = some s' ∧ Shape nbl nc ns s' ∧
      (∀ i, i < nbl → s'.Q0.getD i 0 = s.Q0.getD i 0 + (if inBinBL i p then 1 else 0)) ∧
      (∀ i, i < nbl → s'.QE.getD i 0 =
        s.QE.getD i 0 + (if inBinBL i p && isExceed thr p then 1 else 0)) ∧
      (∀ i, i < nbl → s'.Q1.getD i 0 = s.Q1.getD i 0 + (if inBinBL i p then valOf p else 0)) ∧
      (∀ a b, a < ns → b < nc →
        getD2 s'.P0 a b = getD2 s.P0 a b + (if inCell a b p then 1 else 0)) ∧
      (∀ a b, a < ns → b < nc →
        getD2 s'.PE a b = getD2 s.PE a b + (if inCell a b p && isExceed thr p then 1 else 0)) ∧
      (∀ a b, a < ns → b < nc →
        getD2 s'.P1 a b = getD2 s.P1 a b + (if inCell a b p then valOf p else 0)) := by
  obtain ⟨hQ0, hQE, hQ1, hP0, hPE, hP1⟩ := hs
  obtain ⟨s1, hstep1, k0, kE, k1, e0, eE, e1, d0, dE, d1⟩ := stepBL_spec nbl thr s p hQ0 hQE hQ1
  obtain ⟨s2, hstep2, m0, mE, m1, f0, fE, f1, g0, gE, g1⟩ :=
    step2D_spec nc ns thr s1 p (e0 ▸ hP0) (eE ▸ hPE) (e1 ▸ hP1)
  refine ⟨s2, ?_, ⟨f0 ▸ k0, fE ▸ kE, f1 ▸ k1, m0, mE, m1⟩, ?_, ?_, ?_, ?_, ?_, ?_⟩
  · rw [stepPoint, hstep1]
    exact hstep2
  · intro i hi
    rw [f0]
    exact d0 i hi
  · intro i hi
    rw [fE]
    exact dE i hi
  · intro i hi
    rw [f1]
    exact d1 i hi
  · intro a b ha hb
    rw [g0 a b ha hb, e0]
  · intro a b ha hb
    rw [gE a b ha hb, eE]
  · intro a b ha hb
    rw [g1 a b ha hb, e1]

lemma foldlM_stepPoint_spec (nbl nc ns : Nat) (thr : ℚ) (pts : List Point) :
    ∀ s : Stats, Shape nbl nc ns s →
      ∃ s', List.foldlM (stepPoint nbl nc ns thr) s pts = some s' ∧ Shape nbl nc ns s' ∧
        (∀ i, i < nbl → s'.Q0.getD i 0 = s.Q0.getD i 0 + Q0spec pts i) ∧
        (∀ i, i < nbl → s'.QE.getD i 0 = s.QE.getD i 0 + QEspec thr pts i) ∧
        (∀ i, i < nbl → s'.Q1.getD i 0 = s.Q1.getD i 0 + Q1spec pts i) ∧
        (∀ a b, a < ns → b < nc → getD2 s'.P0 a b = getD2 s.P0 a b + P0spec pts a b) ∧
        (∀ a b, a < ns → b < nc → getD2 s'.PE a b = getD2 s.PE a b + PEspec thr pts a b) ∧
        (∀ a b, a < ns → b < nc → getD2 s'.P1 a b = getD2 s.P1 a b + P1spec pts a b) := by
  induction pts with
  | nil =>
    intro s hs
    refine ⟨s, rfl, hs, ?_, ?_, ?_, ?_, ?_, ?_⟩ <;>
      (intros; simp [Q0spec, QEspec, Q1spec, P0spec, PEspec, P1spec])
  | cons p rest ih =>
    intro s hs
    obtain ⟨s1, h1, hs1, dQ0, dQE, dQ1, dP0, dPE, dP1⟩ := stepPoint_spec nbl nc ns thr s p hs
    obtain ⟨s', h', hs', rQ0, rQE, rQ1, rP0, rPE, rP1⟩ := ih s1 hs1
    refine ⟨s', ?_, hs', ?_, ?_, ?_, ?_, ?_, ?_⟩
    · rw [List.foldlM_cons, h1]
      exact h'
    · intro i hi
      rw [rQ0 i hi, dQ0 i hi, Q0spec_cons]
      ring
    · intro i hi
      rw [rQE i hi, dQE i hi, QEspec_cons]
      ring
    · intro i hi
      rw [rQ1 i hi, dQ1 i hi, Q1spec_cons]
      ring
    · intro a b ha hb
      rw [rP0 a b ha hb, dP0 a b ha hb, P0spec_cons]
      ring
    · intro a b ha hb
      rw [rPE a b ha hb, dPE a b ha hb, PEspec_cons]
      ring
    · intro a b ha hb
      rw [rP1 a b ha hb, dP1 a b ha hb, P1spec_cons]
      ring

lemma getD_replicate_zero (n i : Nat) : (List.replicate n (0 : ℚ)).getD i 0 = 0 := by
  by_cases h : i < n
  · rw [getD_of_lt _ _ _ (by simpa using h), List.getElem_replicate]
  · rw [List.getD_eq_getElem?_getD, List.getElem?_eq_none (by simpa using h)]
    rfl

lemma zeros1_getD (n i : Nat) : (zeros1 n).getD i 0 = 0 :=
  getD_replicate_zero n i

lemma zeros2_getD2 (n m a b : Nat) : getD2 (zeros2 n m) a b = 0 := by
  rw [getD2, zeros2]
  by_cases h : a < n
  · rw [getD_of_lt (List.replicate n (List.replicate m 0)) [] a (by simpa using h),
      List.getElem_replicate, getD_replicate_zero]
  · rw [show (List.replicate n (List.replicate m (0:ℚ))).getD a [] =
        ((List.replicate n (List.replicate m (0:ℚ)))[a]?).getD [] from
          List.getD_eq_getElem?_getD _ _ _,
      List.getElem?_eq_none (by simpa using h)]
    rfl

lemma shape_init (nbl nc ns : Nat) :
    Shape nbl nc ns
      { Q0 := zeros1 nbl, QE := zeros1 nbl, Q1 := zeros1 nbl,
        P0 := zeros2 ns nc, PE := zeros2 ns nc, P1 := zeros2 ns nc } := by
  refine ⟨by simp [zeros1], by simp [zeros1], by simp [zeros1], ?_, ?_, ?_⟩ <;>
    exact ⟨by simp [zeros2], fun a ha => by
      rw [zeros2, getD_of_lt _ _ _ (by simpa using ha), List.getElem_replicate,
        List.length_replicate]⟩

/-- Master characterization of the kernel: `fast_binned_stats` always
succeeds and returns exactly the counts and sums predicted by
`statsSpec`. -/
lemma fast_binned_stats_eq (pts : List Point) (nbl nc ns : Nat) (thr : ℚ) :
    fast_binned_stats pts nbl nc ns thr = some (statsSpec pts nbl nc ns thr) := by
  obtain ⟨s', h, hs', dQ0, dQE, dQ1, dP0, dPE, dP1⟩ :=
    foldlM_stepPoint_spec nbl nc ns thr pts _ (shape_init nbl nc ns)
  rw [fast_binned_stats, h]
  congr 1
  obtain ⟨m0, mE, m1, p0, pE, p1⟩ := hs'
  have hQ0 : s'.Q0 = (List.range nbl).map (Q0spec pts) := by
    apply List.ext_getElem (by simp [m0])
    intro i h1 h2
    rw [← getD_of_lt _ 0 _ h1, dQ0 i (by omega), zeros1_getD, zero_add,
      List.getElem_map, List.getElem_range]
  have hQE : s'.QE = (List.range nbl).map (QEspec thr pts) := by
    apply List.ext_getElem (by simp [mE])
    intro i h1 h2
    rw [← getD_of_lt _ 0 _ h1, dQE i (by omega), zeros1_getD, zero_add,
      List.getElem_map, List.getElem_range]
  have hQ1 : s'.Q1 = (List.range nbl).map (Q1spec pts) := by
    apply List.ext_getElem (by simp [m1])
    intro i h1 h2
    rw [← getD_of_lt _ 0 _ h1, dQ1 i (by omega), zeros1_getD, zero_add,
      List.getElem_map, List.getElem_range]
  obtain ⟨p0l, p0r⟩ := p0
  obtain ⟨pEl, pEr⟩ := pE
  obtain ⟨p1l, p1r⟩ := p1
  have hP0 : s'.P0 = (List.range ns).map (fun a => (List.range nc).map (P0spec pts a)) := by
    apply List.ext_getElem (by simp [p0l])
    intro a h1 h2
    have ha : a < ns := by omega
    have hrow : (s'.P0.getD a []).length = nc := p0r a ha
    rw [List.getElem_map, List.getElem_range]
    apply List.ext_getElem (by rw [← getD_of_lt _ [] _ h1, hrow]; simp)
    intro b h3 h4
    have hb : b < nc := by
      rw [← getD_of_lt _ [] _ h1, hrow] at h3
      exact h3
    rw [List.getElem_map, List.getElem_range, ← getD_of_lt _ 0 _ h3, ← getD_of_lt _ [] _ h1]
    rw [show (s'.P0.getD a []).getD b 0 = getD2 s'.P0 a b from rfl,
      dP0 a b ha hb, zeros2_getD2, zero_add]
  have hPE : s'.PE = (List.range ns).map (fun a => (List.range nc).map (PEspec thr pts a)) := by
    apply List.ext_getElem (by simp [pEl])
    intro a h1 h2
    have ha : a < ns := by omega
    have hrow : (s'.PE.getD a []).length = nc := pEr a ha
    rw [List.getElem_map, List.getElem_range]
    apply List.ext_getElem (by rw [← getD_of_lt _ [] _ h1, hrow]; simp)
    intro b h3 h4
    have hb : b < nc := by
      rw [← getD_of_lt _ [] _ h1, hrow] at h3
      exact h3
    rw [List.getElem_map, List.getElem_range, ← getD_of_lt _ 0 _ h3, ← getD_of_lt _ [] _ h1]
    rw [show (s'.PE.getD a []).getD b 0 = getD2 s'.PE a b from rfl,
      dPE a b ha hb, zeros2_getD2, zero_add]
  have hP1 : s'.P1 = (List.range ns).map (fun a => (List.range nc).map (P1spec pts a)) := by
    apply List.ext_getElem (by simp [p1l])
    intro a h1 h2
    have ha : a < ns := by omega
    have hrow : (s'.P1.getD a []).length = nc := p1r a ha
    rw [List.getElem_map, List.getElem_range]
    apply List.ext_getElem (by rw [← getD_of_lt _ [] _ h1, hrow]; simp)
    intro b h3 h4
    have hb : b < nc := by
      rw [← getD_of_lt _ [] _ h1, hrow] at h3
      exact h3
    rw [List.getElem_map, List.getElem_range, ← getD_of_lt _ 0 _ h3, ← getD_of_lt _ [] _ h1]
    rw [show (s'.P1.getD a []).getD b 0 = getD2 s'.P1 a b from rfl,
      dP1 a b ha hb, zeros2_getD2, zero_add]
  obtain ⟨Q0', QE', Q1', P0', PE', P1'⟩ := s'
  simp only [statsSpec, Stats.mk.injEq]
  exact ⟨hQ0, hQE, hQ1, hP0, hPE, hP1⟩

lemma truncQ_of_nonneg {q : ℚ} (h : 0 ≤ q) : truncQ q = ⌊q⌋ := if_pos h

lemma truncQ_of_neg {q : ℚ} (h : q < 0) : truncQ q = ⌈q⌉ := if_neg (not_le.mpr h)

lemma truncQ_eq_zero {q : ℚ} (h1 : -1 < q) (h2 : q < 1) : truncQ q = 0 := by
  by_cases h : 0 ≤ q
  · rw [truncQ_of_nonneg h, Int.floor_eq_zero_iff, Set.mem_Ico]
    exact ⟨h, h2⟩
  · push_neg at h
    rw [truncQ_of_neg h, Int.ceil_eq_zero_iff, Set.mem_Ioc]
    exact ⟨h1, h.le⟩

lemma truncQ_le_neg_one {q : ℚ} (h : q ≤ -1) : truncQ q ≤ -1 := by
  rw [truncQ_of_neg (lt_of_le_of_lt h (by norm_num))]
  refine Int.ceil_le.mpr ?_
  push_cast
  exact h

lemma arange_length (s e st : ℚ) : (arange s e st).length = (⌈(e - s) / st⌉).toNat := by
  rw [arange, List.length_map, List.length_range]

lemma arange_getD (s e st : ℚ) (k : Nat) (hk : k < (arange s e st).length) :
    (arange s e st).getD k 0 = s + (k : ℚ) * st := by
  rw [getD_of_lt _ _ _ hk]
  simp only [arange, List.getElem_map, List.getElem_range]

/-- C1 counterexample: the claim states that the Policy B (2-D) index
equals `floor((value - min)/width - 0.5)` and that a value exactly
equal to `min` gets index `-1`.  At the configured cape bin parameters
`{min: -70, max: 20, width: 1}` and `value = -70`, the code (which
converts by `astype`, truncation toward zero) yields index `0`, while
the claimed floor formula yields `-1`. -/
theorem policyB_at_min_differs :
    capeidxOf ⟨-70, 20, 1⟩ (-70) = 0 ∧ ⌊((-70 : ℚ) - (-70)) / 1 - 1/2⌋ = -1 := by
  constructor
  · rw [capeidxOf, sub_self, zero_div, zero_sub]
    exact truncQ_eq_zero (by norm_num) (by norm_num)
  · rw [Int.floor_eq_iff]
    norm_num

/-- C1 (amended): for every finite value `v` and bin parameters with
`width > 0`, the Policy A index is the truncation toward zero of
`(v-min)/width + 1/2` and agrees with the floor form whenever
`v ≥ min - width/2`; the Policy B index is the truncation of
`(v-min)/width - 1/2` and agrees with the floor form whenever
`v ≥ min + width/2`; both still return plain negative integers for
values far enough below `min` (`v ≤ min - 3width/2` resp.
`v ≤ min - width/2`); at `v = min`, Policy A yields `0` and Policy B
also yields `0` (not `-1`). -/
theorem index_policies_truncation (bp : BinParams) (v : ℚ) (hw : 0 < bp.width) :
    (bp.min - bp.width / 2 ≤ v → blidxOf bp v = ⌊(v - bp.min) / bp.width + 1/2⌋) ∧
    (bp.min + bp.width / 2 ≤ v → capeidxOf bp v = ⌊(v - bp.min) / bp.width - 1/2⌋) ∧
    subsatidxOf bp v = capeidxOf bp v ∧
    (v ≤ bp.min - 3 * bp.width / 2 → blidxOf bp v ≤ -1) ∧
    (v ≤ bp.min - bp.width / 2 → capeidxOf bp v ≤ -1) ∧
    blidxOf bp bp.min = 0 ∧ capeidxOf bp bp.min = 0 := by
  refine ⟨?_, ?_, rfl, ?_, ?_, ?_, ?_⟩
  · intro hv
    apply truncQ_of_nonneg
    have h : -(1/2) ≤ (v - bp.min) / bp.width := by
      rw [le_div_iff hw]
      linarith
    linarith
  · intro hv
    apply truncQ_of_nonneg
    have h : (1:ℚ)/2 ≤ (v - bp.min) / bp.width := by
      rw [le_div_iff hw]
      linarith
    linarith
  · intro hv
    apply truncQ_le_neg_one
    have h : (v - bp.min) / bp.width ≤ -(3/2) := by
      rw [div_le_iff hw]
      linarith
    linarith
  · intro hv
    apply truncQ_le_neg_one
    have h : (v - bp.min) / bp.width ≤ -(1/2) := by
      rw [div_le_iff hw]
      linarith
    linarith
  · rw [blidxOf, sub_self, zero_div, zero_add]
    exact truncQ_eq_zero (by norm_num) (by norm_num)
  · rw [capeidxOf, sub_self, zero_div, zero_sub]
    exact truncQ_eq_zero (by norm_num) (by norm_num)

/-- C1 witness: the amended theorem applied at the cape bin parameters
and `v = 5`. -/
theorem index_policies_truncation_witness :
    (0:ℚ) < 1 ∧
    (((-70:ℚ) - 1 / 2 ≤ 5 → blidxOf ⟨-70, 20, 1⟩ 5 = ⌊((5:ℚ) - -70) / 1 + 1/2⌋) ∧
     ((-70:ℚ) + 1 / 2 ≤ 5 → capeidxOf ⟨-70, 20, 1⟩ 5 = ⌊((5:ℚ) - -70) / 1 - 1/2⌋) ∧
     subsatidxOf ⟨-70, 20, 1⟩ 5 = capeidxOf ⟨-70, 20, 1⟩ 5 ∧
     ((5:ℚ) ≤ -70 - 3 * 1 / 2 → blidxOf ⟨-70, 20, 1⟩ 5 ≤ -1) ∧
     ((5:ℚ) ≤ -70 - 1 / 2 → capeidxOf ⟨-70, 20, 1⟩ 5 ≤ -1) ∧
     blidxOf ⟨-70, 20, 1⟩ (-70) = 0 ∧ capeidxOf ⟨-70, 20, 1⟩ (-70) = 0) :=
  ⟨by norm_num, index_policies_truncation ⟨-70, 20, 1⟩ 5 (by norm_num)⟩

/-- C9: with truncation toward zero, Policy A as implemented sends
every `v` with `min - 1.5 width < v < min + 0.5 width` to index `0`,
and Policy B sends every `v` with `min - 0.5 width < v < min + 1.5
width` to index `0`; in particular a value exactly equal to `min` gets
2-D index `0`, which is in range whenever the axis has at least one
bin. -/
theorem truncated_first_bin_intervals (bp : BinParams) (v : ℚ) (hw : 0 < bp.width) :
    (bp.min - 3 * bp.width / 2 < v → v < bp.min + bp.width / 2 → blidxOf bp v = 0) ∧
    (bp.min - bp.width / 2 < v → v < bp.min + 3 * bp.width / 2 →
      capeidxOf bp v = 0 ∧ subsatidxOf bp v = 0) ∧
    capeidxOf bp bp.min = 0 ∧
    (bp.min < bp.max → 0 < (get_bin_edges bp).length) := by
  refine ⟨?_, ?_, ?_, ?_⟩
  · intro hv1 hv2
    apply truncQ_eq_zero
    · have h : -(3/2) < (v - bp.min) / bp.width := by
        rw [lt_div_iff hw]
        linarith
      linarith
    · have h : (v - bp.min) / bp.width < 1/2 := by
        rw [div_lt_iff hw]
        linarith
      linarith
  · intro hv1 hv2
    have hc : capeidxOf bp v = 0 := by
      apply truncQ_eq_zero
      · have h : -(1/2) < (v - bp.min) / bp.width := by
          rw [lt_div_iff hw]
          linarith
        linarith
      · have h : (v - bp.min) / bp.width < 3/2 := by
          rw [div_lt_iff hw]
          linarith
        linarith
    exact ⟨hc, hc⟩
  · rw [capeidxOf, sub_self, zero_div, zero_sub]
    exact truncQ_eq_zero (by norm_num) (by norm_num)
  · intro hlt
    rw [get_bin_edges, arange_length]
    have h : (0:ℚ) < (bp.max + bp.width - bp.min) / bp.width :=
      div_pos (by linarith) hw
    have h2 := Int.ceil_pos.mpr h
    omega

/-- C9 witness: the theorem applied at the bl bin parameters and
`v = min`. -/
theorem truncated_first_bin_intervals_witness :
    (0:ℚ) < 1/400 ∧
    ((-(3:ℚ)/5 - 3 * (1/400) / 2 < -(3:ℚ)/5 → -(3:ℚ)/5 < -(3:ℚ)/5 + 1/400 / 2 →
        blidxOf ⟨-(3:ℚ)/5, 1/10, 1/400⟩ (-(3:ℚ)/5) = 0) ∧
     (-(3:ℚ)/5 - 1/400 / 2 < -(3:ℚ)/5 → -(3:ℚ)/5 < -(3:ℚ)/5 + 3 * (1/400) / 2 →
        capeidxOf ⟨-(3:ℚ)/5, 1/10, 1/400⟩ (-(3:ℚ)/5) = 0 ∧
        subsatidxOf ⟨-(3:ℚ)/5, 1/10, 1/400⟩ (-(3:ℚ)/5) = 0) ∧
     capeidxOf ⟨-(3:ℚ)/5, 1/10, 1/400⟩ (-(3:ℚ)/5) = 0 ∧
     (-(3:ℚ)/5 < 1/10 → 0 < (get_bin_edges ⟨-(3:ℚ)/5, 1/10, 1/400⟩).length)) :=
  ⟨by norm_num,
    truncated_first_bin_intervals ⟨-(3:ℚ)/5, 1/10, 1/400⟩ (-(3:ℚ)/5) (by norm_num)⟩

/-- C3 counterexample: the claim states the edge count is
`floor((max-min)/width) + 1` for every valid specification.  The valid
specification `{min: 0, max: 1, width: 2/3}` yields 3 edges
(`[0, 2/3, 4/3]`, since `np.arange` runs over `[min, max+width)`),
while `floor((1-0)/(2/3)) + 1 = 2`. -/
theorem bin_edges_length_not_floor :
    ¬ (get_bin_edges ⟨0, 1, 2/3⟩).length = (⌊((1:ℚ) - 0) / (2/3)⌋ + 1).toNat := by
  rw [get_bin_edges, arange_length]
  have h1 : ((1:ℚ) + 2/3 - 0) / (2/3) = 5/2 := by norm_num
  have h2 : ((1:ℚ) - 0) / (2/3) = 3/2 := by norm_num
  rw [h1, h2]
  have h3 : ⌈(5:ℚ)/2⌉ = 3 := by
    rw [Int.ceil_eq_iff]
    constructor <;> norm_num
  have h4 : ⌊(3:ℚ)/2⌋ = 1 := by
    rw [Int.floor_eq_iff]
    constructor <;> norm_num
  rw [h3, h4]
  decide

/-- C3 (amended): for every valid specification (`width > 0`,
`max > min`), the edges form a strictly ascending sequence starting at
`min` with constant step `width`, of length
`ceil((max-min)/width) + 1` — which equals `floor((max-min)/width) + 1`
exactly when `width` divides `max - min`; the bl specification
`{min: -0.6, max: 0.1, width: 0.0025}` yields 281 edges. -/
theorem bin_edges_structure (bp : BinParams) (hw : 0 < bp.width) (hlt : bp.min < bp.max) :
    (get_bin_edges bp).length = (⌈(bp.max - bp.min) / bp.width⌉ + 1).toNat ∧
    (get_bin_edges bp).getD 0 0 = bp.min ∧
    (∀ k, k + 1 < (get_bin_edges bp).length →
      (get_bin_edges bp).getD (k + 1) 0 = (get_bin_edges bp).getD k 0 + bp.width ∧
      (get_bin_edges bp).getD k 0 < (get_bin_edges bp).getD (k + 1) 0) ∧
    (get_bin_edges ⟨-(3:ℚ)/5, 1/10, 1/400⟩).length = 281 := by
  have hlen : (get_bin_edges bp).length = (⌈(bp.max - bp.min) / bp.width⌉ + 1).toNat := by
    rw [get_bin_edges, arange_length,
      show bp.max + bp.width - bp.min = (bp.max - bp.min) + bp.width by ring,
      add_div, div_self hw.ne', Int.ceil_add_one]
  refine ⟨hlen, ?_, ?_, ?_⟩
  · have hpos : 0 < (get_bin_edges bp).length := by
      rw [hlen]
      have h : (0:ℚ) < (bp.max - bp.min) / bp.width := div_pos (by linarith) hw
      have h2 := Int.ceil_pos.mpr h
      omega
    rw [get_bin_edges] at hpos ⊢
    rw [arange_getD _ _ _ 0 hpos]
    norm_num
  · intro k hk
    rw [get_bin_edges] at hk ⊢
    have hk' : k < (arange bp.min (bp.max + bp.width) bp.width).length := by omega
    rw [arange_getD _ _ _ (k + 1) hk, arange_getD _ _ _ k hk']
    constructor
    · push_cast
      ring
    · push_cast
      have h : ((k:ℚ) + 1) * bp.width = (k:ℚ) * bp.width + bp.width := by ring
      rw [h]
      linarith
  · rw [get_bin_edges, arange_length]
    show (⌈((1:ℚ)/10 + 1/400 - -(3:ℚ)/5) / (1/400)⌉).toNat = 281
    have h : ((1:ℚ)/10 + 1/400 - -(3:ℚ)/5) / (1/400) = 281 := by norm_num
    rw [h, show (281:ℚ) = ((281:Int):ℚ) by norm_num, Int.ceil_intCast]
    rfl

/-- C3 witness: the amended theorem applied at the bl bin
parameters. -/
theorem bin_edges_structure_witness :
    ((0:ℚ) < 1/400 ∧ -(3:ℚ)/5 < 1/10) ∧
    ((get_bin_edges ⟨-(3:ℚ)/5, 1/10, 1/400⟩).length =
        (⌈((1:ℚ)/10 - -(3:ℚ)/5) / (1/400)⌉ + 1).toNat ∧
     (get_bin_edges ⟨-(3:ℚ)/5, 1/10, 1/400⟩).getD 0 0 = -(3:ℚ)/5 ∧
     (∀ k, k + 1 < (get_bin_edges ⟨-(3:ℚ)/5, 1/10, 1/400⟩).length →
       (get_bin_edges ⟨-(3:ℚ)/5, 1/10, 1/400⟩).getD (k + 1) 0 =
         (get_bin_edges ⟨-(3:ℚ)/5, 1/10, 1/400⟩).getD k 0 + 1/400 ∧
       (get_bin_edges ⟨-(3:ℚ)/5, 1/10, 1/400⟩).getD k 0 <
         (get_bin_edges ⟨-(3:ℚ)/5, 1/10, 1/400⟩).getD (k + 1) 0) ∧
     (get_bin_edges ⟨-(3:ℚ)/5, 1/10, 1/400⟩).length = 281) :=
  ⟨⟨by norm_num, by norm_num⟩,
    bin_edges_structure ⟨-(3:ℚ)/5, 1/10, 1/400⟩ (by norm_num) (by norm_num)⟩

lemma statsSpec_Q0_getD (pts : List Point) (nbl nc ns : Nat) (thr : ℚ) (i : Nat)
    (hi : i < nbl) : (statsSpec pts nbl nc ns thr).Q0.getD i 0 = Q0spec pts i := by
  rw [statsSpec, getD_of_lt _ _ _ (by simpa using hi), List.getElem_map, List.getElem_range]

lemma statsSpec_QE_getD (pts : List Point) (nbl nc ns : Nat) (thr : ℚ) (i : Nat)
    (hi : i < nbl) : (statsSpec pts nbl nc ns thr).QE.getD i 0 = QEspec thr pts i := by
  rw [statsSpec, getD_of_lt _ _ _ (by simpa using hi), List.getElem_map, List.getElem_range]

lemma statsSpec_Q1_getD (pts : List Point) (nbl nc ns : Nat) (thr : ℚ) (i : Nat)
    (hi : i < nbl) : (statsSpec pts nbl nc ns thr).Q1.getD i 0 = Q1spec pts i := by
  rw [statsSpec, getD_of_lt _ _ _ (by simpa using hi), List.getElem_map, List.getElem_range]

lemma statsSpec_P0_getD2 (pts : List Point) (nbl nc ns : Nat) (thr : ℚ) (a b : Nat)
    (ha : a < ns) (hb : b < nc) :
    getD2 (statsSpec pts nbl nc ns thr).P0 a b = P0spec pts a b := by
  have h1 : (statsSpec pts nbl nc ns thr).P0 =
      (List.range ns).map (fun x => (List.range nc).map (P0spec pts x)) := rfl
  rw [getD2, h1, getD_of_lt _ [] a (by simpa using ha), List.getElem_map, List.getElem_range,
    getD_of_lt _ 0 b (by simpa using hb), List.getElem_map, List.getElem_range]

lemma statsSpec_PE_getD2 (pts : List Point) (nbl nc ns : Nat) (thr : ℚ) (a b : Nat)
    (ha : a < ns) (hb : b < nc) :
    getD2 (statsSpec pts nbl nc ns thr).PE a b = PEspec thr pts a b := by
  have h1 : (statsSpec pts nbl nc ns thr).PE =
      (List.range ns).map (fun x => (List.range nc).map (PEspec thr pts x)) := rfl
  rw [getD2, h1, getD_of_lt _ [] a (by simpa using ha), List.getElem_map, List.getElem_range,
    getD_of_lt _ 0 b (by simpa using hb), List.getElem_map, List.getElem_range]

lemma statsSpec_P1_getD2 (pts : List Point) (nbl nc ns : Nat) (thr : ℚ) (a b : Nat)
    (ha : a < ns) (hb : b < nc) :
    getD2 (statsSpec pts nbl nc ns thr).P1 a b = P1spec pts a b := by
  have h1 : (statsSpec pts nbl nc ns thr).P1 =
      (List.range ns).map (fun x => (List.range nc).map (P1spec pts x)) := rfl
  rw [getD2, h1, getD_of_lt _ [] a (by simpa using ha), List.getElem_map, List.getElem_range,
    getD_of_lt _ 0 b (by simpa using hb), List.getElem_map, List.getElem_range]

/-- C2: for every input, the kernel returns, for each 1-D bin `i`,
`Q0[i]` = the number of points with 1-D index exactly `i` and finite
precipitation, `Q1[i]` = the sum of those points' values, and `QE[i]`
= the number of those points strictly above the threshold (a value
exactly equal to the threshold is not counted); and analogously
`P0/P1/PE` for each 2-D cell, with 1-D and 2-D contributions decided
independently per point.  All of this is the content of `statsSpec`. -/
theorem kernel_counts_and_sums (pts : List Point) (nblbins ncapebins nsubsatbins : Nat)
    (prthresh : ℚ) :
    fast_binned_stats pts nblbins ncapebins nsubsatbins prthresh =
      some (statsSpec pts nblbins ncapebins nsubsatbins prthresh) :=
  fast_binned_stats_eq pts nblbins ncapebins nsubsatbins prthresh

/-- C10: for arbitrary integer index arrays and precipitation values,
every accumulator read-modify-write is in bounds: in this total
embedding, where each array access is `Option`-valued and the kernel
fails if any access is out of bounds, the kernel always succeeds. -/
theorem kernel_no_out_of_bounds (pts : List Point) (nblbins ncapebins nsubsatbins : Nat)
    (prthresh : ℚ) :
    (fast_binned_stats pts nblbins ncapebins nsubsatbins prthresh).isSome = true := by
  rw [fast_binned_stats_eq]
  rfl

/-- C8: for every input, every bin and every non-negative threshold,
`QE[i] ≤ Q0[i]` and `PE[a,b] ≤ P0[a,b]`. -/
theorem exceedance_le_count (pts : List Point) (nblbins ncapebins nsubsatbins : Nat)
    (prthresh : ℚ) (s : Stats) (hthr : 0 ≤ prthresh)
    (h : fast_binned_stats pts nblbins ncapebins nsubsatbins prthresh = some s) :
    (∀ i, i < nblbins → s.QE.getD i 0 ≤ s.Q0.getD i 0) ∧
    (∀ a b, a < nsubsatbins → b < ncapebins → getD2 s.PE a b ≤ getD2 s.P0 a b) := by
  rw [fast_binned_stats_eq] at h
  obtain rfl : statsSpec pts nblbins ncapebins nsubsatbins prthresh = s := Option.some.inj h
  constructor
  · intro i hi
    rw [statsSpec_Q0_getD _ _ _ _ _ _ hi, statsSpec_QE_getD _ _ _ _ _ _ hi, QEspec, Q0spec]
    have hle := List.countP_mono_left
      (l := pts) (p := fun p => inBinBL i p && isExceed prthresh p) (q := inBinBL i)
      (fun x _ hx => by
        rw [Bool.and_eq_true] at hx
        exact hx.1)
    exact_mod_cast hle
  · intro a b ha hb
    rw [statsSpec_P0_getD2 _ _ _ _ _ _ _ ha hb, statsSpec_PE_getD2 _ _ _ _ _ _ _ ha hb,
      PEspec, P0spec]
    have hle := List.countP_mono_left
      (l := pts) (p := fun p => inCell a b p && isExceed prthresh p) (q := inCell a b)
      (fun x _ hx => by
        rw [Bool.and_eq_true] at hx
        exact hx.1)
    exact_mod_cast hle

/-- C8 witness: the theorem applied to a one-point input with
threshold 1/4. -/
theorem exceedance_le_count_witness :
    ((0:ℚ) ≤ 1/4 ∧
      fast_binned_stats [⟨0, 0, 0, some 1⟩] 1 1 1 (1/4) =
        some (statsSpec [⟨0, 0, 0, some 1⟩] 1 1 1 (1/4))) ∧
    ((∀ i, i < 1 →
        (statsSpec [⟨0, 0, 0, some 1⟩] 1 1 1 (1/4)).QE.getD i 0 ≤
          (statsSpec [⟨0, 0, 0, some 1⟩] 1 1 1 (1/4)).Q0.getD i 0) ∧
     (∀ a b, a < 1 → b < 1 →
        getD2 (statsSpec [⟨0, 0, 0, some 1⟩] 1 1 1 (1/4)).PE a b ≤
          getD2 (statsSpec [⟨0, 0, 0, some 1⟩] 1 1 1 (1/4)).P0 a b)) :=
  ⟨⟨by norm_num, fast_binned_stats_eq _ _ _ _ _⟩,
    exceedance_le_count [⟨0, 0, 0, some 1⟩] 1 1 1 (1/4) _ (by norm_num)
      (fast_binned_stats_eq _ _ _ _ _)⟩

/-- A point counts toward `sum(Q0)` iff its 1-D index is in range and
its value is finite (spec §8, conservation). -/
def inRangeBL (nblbins : Nat) (p : Point) : Bool :=
  decide ((0 ≤ p.blidx ∧ p.blidx < (nblbins : Int)) ∧ p.prval.isSome = true)

/-- A point counts toward `sum(P0)` iff both 2-D indices are in range
and its value is finite. -/
def inRange2D (ncapebins nsubsatbins : Nat) (p : Point) : Bool :=
  decide (((0 ≤ p.subsatidx ∧ p.subsatidx < (nsubsatbins : Int)) ∧
    (0 ≤ p.capeidx ∧ p.capeidx < (ncapebins : Int))) ∧ p.prval.isSome = true)

lemma sum_range_indicator (n : Nat) (k : Int) (c : ℚ) :
    ((List.range n).map (fun i : Nat => if k == (i : Int) then c else 0)).sum =
      if 0 ≤ k ∧ k < (n : Int) then c else 0 := by
  induction n with
  | zero =>
    rw [List.range_zero, List.map_nil, List.sum_nil, if_neg (by omega)]
  | succ m ih =>
    rw [List.range_succ, List.map_append, List.sum_append, ih]
    simp only [List.map_cons, List.map_nil, List.sum_cons, List.sum_nil, add_zero]
    push_cast
    by_cases h1 : 0 ≤ k ∧ k < (m : Int)
    · have hne : (k == (m : Int)) = false := by
        rw [beq_eq_false_iff_ne]
        omega
      have h2 : 0 ≤ k ∧ k < (m : Int) + 1 := ⟨h1.1, by omega⟩
      rw [if_pos h1, hne, if_pos h2]
      simp
    · by_cases h2 : k = (m : Int)
      · have heq : (k == (m : Int)) = true := by
          rw [beq_iff_eq]
          exact h2
        have h3 : 0 ≤ k ∧ k < (m : Int) + 1 := ⟨by omega, by omega⟩
        rw [if_neg h1, heq, if_pos h3]
        simp
      · have hne : (k == (m : Int)) = false := by
          rw [beq_eq_false_iff_ne]
          exact h2
        have h3 : ¬(0 ≤ k ∧ k < (m : Int) + 1) := by omega
        rw [if_neg h1, hne, if_neg h3]
        simp

lemma sum_delta_bl (n : Nat) (p : Point) :
    ((List.range n).map (fun i : Nat => if inBinBL i p then (1:ℚ) else 0)).sum =
      if inRangeBL n p then (1:ℚ) else 0 := by
  cases hp : p.prval with
  | none =>
    rw [List.sum_eq_zero, if_neg]
    · simp [inRangeBL, hp]
    · intro x hx
      obtain ⟨i, _, rfl⟩ := List.mem_map.mp hx
      simp [inBinBL, hp]
  | some v =>
    have hcg : (List.range n).map (fun i : Nat => if inBinBL i p then (1:ℚ) else 0) =
        (List.range n).map (fun i : Nat => if p.blidx == (i : Int) then (1:ℚ) else 0) := by
      apply List.map_congr_left
      intro i _
      have he : inBinBL i p = (p.blidx == (i : Int)) := by
        simp [inBinBL, hp]
      rw [he]
    rw [hcg, sum_range_indicator]
    have hiff : (inRangeBL n p = true) ↔ (0 ≤ p.blidx ∧ p.blidx < (n : Int)) := by
      simp [inRangeBL, hp]
    rw [ite_eq_of_iff hiff]

lemma sum_delta_2d (nc ns : Nat) (p : Point) :
    ((List.range ns).map (fun a : Nat =>
        ((List.range nc).map (fun b : Nat => if inCell a b p then (1:ℚ) else 0)).sum)).sum =
      if inRange2D nc ns p then (1:ℚ) else 0 := by
  cases hp : p.prval with
  | none =>
    rw [List.sum_eq_zero, if_neg]
    · simp [inRange2D, hp]
    · intro x hx
      obtain ⟨a, _, rfl⟩ := List.mem_map.mp hx
      apply List.sum_eq_zero
      intro y hy
      obtain ⟨b, _, rfl⟩ := List.mem_map.mp hy
      simp [inCell, hp]
  | some v =>
    have hin : ∀ a : Nat,
        ((List.range nc).map (fun b : Nat => if inCell a b p then (1:ℚ) else 0)).sum =
          if p.subsatidx == (a : Int) then
            (if 0 ≤ p.capeidx ∧ p.capeidx < (nc : Int) then (1:ℚ) else 0) else 0 := by
      intro a
      by_cases hs : p.subsatidx = (a : Int)
      · rw [if_pos (by rw [beq_iff_eq]; exact hs)]
        have hcg : (List.range nc).map (fun b : Nat => if inCell a b p then (1:ℚ) else 0) =
            (List.range nc).map (fun b : Nat => if p.capeidx == (b : Int) then (1:ℚ) else 0) := by
          apply List.map_congr_left
          intro b _
          have he : inCell a b p = (p.capeidx == (b : Int)) := by
            simp [inCell, hp, hs]
          rw [he]
        rw [hcg, sum_range_indicator]
      · rw [if_neg (by rw [beq_iff_eq]; exact hs)]
        apply List.sum_eq_zero
        intro y hy
        obtain ⟨b, _, rfl⟩ := List.mem_map.mp hy
        have he : inCell a b p = false := by
          simp [inCell, hp, hs]
        rw [he]
        rfl
    rw [List.map_congr_left (fun a _ => hin a), sum_range_indicator]
    by_cases hc : 0 ≤ p.capeidx ∧ p.capeidx < (nc : Int)
    · rw [if_pos hc]
      have hiff : (inRange2D nc ns p = true) ↔ (0 ≤ p.subsatidx ∧ p.subsatidx < (ns : Int)) := by
        simp [inRange2D, hp]
        omega
      rw [ite_eq_of_iff hiff]
    · have hiff : inRange2D nc ns p = false := by
        simp only [inRange2D, hp, Option.isSome_some, and_true, decide_eq_false_iff_not]
        tauto
      rw [if_neg hc, ite_self, hiff]
      simp

lemma sum_Q0spec (pts : List Point) (n : Nat) :
    ((List.range n).map (Q0spec pts)).sum = (pts.countP (inRangeBL n) : ℚ) := by
  induction pts with
  | nil =>
    rw [List.sum_eq_zero, List.countP_nil, Nat.cast_zero]
    intro x hx
    obtain ⟨i, _, rfl⟩ := List.mem_map.mp hx
    simp [Q0spec]
  | cons p rest ih =>
    have hm : (List.range n).map (Q0spec (p :: rest)) =
        (List.range n).map (fun i => Q0spec rest i + (if inBinBL i p then (1:ℚ) else 0)) :=
      List.map_congr_left (fun i _ => Q0spec_cons p rest i)
    rw [hm, List.sum_map_add, ih, sum_delta_bl, List.countP_cons, Nat.cast_add]
    congr 1
    split <;> simp

lemma sum_P0spec (pts : List Point) (nc ns : Nat) :
    ((List.range ns).map (fun a => ((List.range nc).map (P0spec pts a)).sum)).sum =
      (pts.countP (inRange2D nc ns) : ℚ) := by
  induction pts with
  | nil =>
    rw [List.sum_eq_zero, List.countP_nil, Nat.cast_zero]
    intro x hx
    obtain ⟨a, _, rfl⟩ := List.mem_map.mp hx
    apply List.sum_eq_zero
    intro y hy
    obtain ⟨b, _, rfl⟩ := List.mem_map.mp hy
    simp [P0spec]
  | cons p rest ih =>
    have hm : (List.range ns).map (fun a => ((List.range nc).map (P0spec (p :: rest) a)).sum) =
        (List.range ns).map (fun a =>
          ((List.range nc).map (P0spec rest a)).sum +
            ((List.range nc).map (fun b => if inCell a b p then (1:ℚ) else 0)).sum) := by
      apply List.map_congr_left
      intro a _
      have hmi : (List.range nc).map (P0spec (p :: rest) a) =
          (List.range nc).map (fun b => P0spec rest a b + (if inCell a b p then (1:ℚ) else 0)) :=
        List.map_congr_left (fun b _ => P0spec_cons p rest a b)
      rw [hmi, List.sum_map_add]
    rw [hm, List.sum_map_add, ih, sum_delta_2d, List.countP_cons, Nat.cast_add]
    congr 1
    split <;> simp

/-- C7: the sum of `Q0` over all 1-D bins is the number of points with
finite precipitation and in-range 1-D index, and the sum of `P0` over
all 2-D cells is the number of points with finite precipitation and
both 2-D indices in range; neither depends on the threshold (the
right-hand sides do not mention `prthresh`). -/
theorem kernel_conservation (pts : List Point) (nblbins ncapebins nsubsatbins : Nat)
    (prthresh : ℚ) (s : Stats)
    (h : fast_binned_stats pts nblbins ncapebins nsubsatbins prthresh = some s) :
    s.Q0.sum = (pts.countP (inRangeBL nblbins) : ℚ) ∧
    (s.P0.map List.sum).sum = (pts.countP (inRange2D ncapebins nsubsatbins) : ℚ) := by
  rw [fast_binned_stats_eq] at h
  obtain rfl : statsSpec pts nblbins ncapebins nsubsatbins prthresh = s := Option.some.inj h
  constructor
  · rw [show (statsSpec pts nblbins ncapebins nsubsatbins prthresh).Q0 =
      (List.range nblbins).map (Q0spec pts) from rfl]
    exact sum_Q0spec pts nblbins
  · rw [show (statsSpec pts nblbins ncapebins nsubsatbins prthresh).P0 =
      (List.range nsubsatbins).map
        (fun a => (List.range ncapebins).map (P0spec pts a)) from rfl]
    rw [List.map_map]
    exact sum_P0spec pts ncapebins nsubsatbins

lemma countP_replicate {α : Type} (q : α → Bool) (x : α) (n : Nat) :
    (List.replicate n x).countP q = if q x then n else 0 := by
  induction n with
  | zero => simp
  | succ m ih =>
    rw [List.replicate_succ, List.countP_cons, ih]
    by_cases h : q x <;> simp [h]

/-- A sample point with finite precipitation, indices all 0. -/
def pFinite : Point := ⟨0, 0, 0, some 1⟩

/-- A sample point with non-finite precipitation. -/
def pMissing : Point := ⟨0, 0, 0, none⟩

/-- 100 points, half of them with non-finite precipitation, the rest
with in-range indices (for one-bin axes). -/
def pts100 : List Point := List.replicate 50 pFinite ++ List.replicate 50 pMissing

/-- C7 witness: the conservation theorem applied to the 100-point
input `pts100` with threshold 1/4; `sum(Q0) = 50` there. -/
theorem kernel_conservation_witness :
    fast_binned_stats pts100 1 1 1 (1/4) = some (statsSpec pts100 1 1 1 (1/4)) ∧
    ((statsSpec pts100 1 1 1 (1/4)).Q0.sum = (pts100.countP (inRangeBL 1) : ℚ) ∧
     ((statsSpec pts100 1 1 1 (1/4)).P0.map List.sum).sum =
       (pts100.countP (inRange2D 1 1) : ℚ)) ∧
    (pts100.countP (inRangeBL 1) : ℚ) = 50 :=
  ⟨fast_binned_stats_eq _ _ _ _ _,
   kernel_conservation pts100 1 1 1 (1/4) _ (fast_binned_stats_eq _ _ _ _ _),
   by
    rw [pts100, List.countP_append, countP_replicate, countP_replicate]
    norm_num [inRangeBL, pFinite, pMissing]⟩

/-- Elementwise sum of two (same-shape) `Stats` records: the merge
step of partitioned accumulation. -/
def addStats (s t : Stats) : Stats where
  Q0 := List.zipWith (· + ·) s.Q0 t.Q0
  QE := List.zipWith (· + ·) s.QE t.QE
  Q1 := List.zipWith (· + ·) s.Q1 t.Q1
  P0 := List.zipWith (fun r1 r2 => List.zipWith (· + ·) r1 r2) s.P0 t.P0
  PE := List.zipWith (fun r1 r2 => List.zipWith (· + ·) r1 r2) s.PE t.PE
  P1 := List.zipWith (fun r1 r2 => List.zipWith (· + ·) r1 r2) s.P1 t.P1

lemma zipWith_map_same {α β γ δ : Type} (f : β → γ → δ) (g : α → β) (h : α → γ)
    (l : List α) :
    List.zipWith f (l.map g) (l.map h) = l.map (fun x => f (g x) (h x)) := by
  rw [List.zipWith_map, List.zipWith_same]

lemma Q0spec_append (l1 l2 : List Point) (i : Nat) :
    Q0spec (l1 ++ l2) i = Q0spec l1 i + Q0spec l2 i := by
  rw [Q0spec, Q0spec, Q0spec, List.countP_append, Nat.cast_add]

lemma QEspec_append (thr : ℚ) (l1 l2 : List Point) (i : Nat) :
    QEspec thr (l1 ++ l2) i = QEspec thr l1 i + QEspec thr l2 i := by
  rw [QEspec, QEspec, QEspec, List.countP_append, Nat.cast_add]

lemma Q1spec_append (l1 l2 : List Point) (i : Nat) :
    Q1spec (l1 ++ l2) i = Q1spec l1 i + Q1spec l2 i := by
  rw [Q1spec, Q1spec, Q1spec, List.filter_append, List.map_append, List.sum_append]

lemma P0spec_append (l1 l2 : List Point) (a b : Nat) :
    P0spec (l1 ++ l2) a b = P0spec l1 a b + P0spec l2 a b := by
  rw [P0spec, P0spec, P0spec, List.countP_append, Nat.cast_add]

lemma PEspec_append (thr : ℚ) (l1 l2 : List Point) (a b : Nat) :
    PEspec thr (l1 ++ l2) a b = PEspec thr l1 a b + PEspec thr l2 a b := by
  rw [PEspec, PEspec, PEspec, List.countP_append, Nat.cast_add]

lemma P1spec_append (l1 l2 : List Point) (a b : Nat) :
    P1spec (l1 ++ l2) a b = P1spec l1 a b + P1spec l2 a b := by
  rw [P1spec, P1spec, P1spec, List.filter_append, List.map_append, List.sum_append]

lemma statsSpec_append (l1 l2 : List Point) (nbl nc ns : Nat) (thr : ℚ) :
    statsSpec (l1 ++ l2) nbl nc ns thr =
      addStats (statsSpec l1 nbl nc ns thr) (statsSpec l2 nbl nc ns thr) := by
  rw [statsSpec, statsSpec, statsSpec, addStats]
  simp only [Stats.mk.injEq]
  refine ⟨?_, ?_, ?_, ?_, ?_, ?_⟩
  · rw [zipWith_map_same]
    exact List.map_congr_left (fun i _ => Q0spec_append l1 l2 i)
  · rw [zipWith_map_same]
    exact List.map_congr_left (fun i _ => QEspec_append thr l1 l2 i)
  · rw [zipWith_map_same]
    exact List.map_congr_left (fun i _ => Q1spec_append l1 l2 i)
  · rw [zipWith_map_same]
    refine List.map_congr_left (fun a _ => ?_)
    rw [zipWith_map_same]
    exact List.map_congr_left (fun b _ => P0spec_append l1 l2 a b)
  · rw [zipWith_map_same]
    refine List.map_congr_left (fun a _ => ?_)
    rw [zipWith_map_same]
    exact List.map_congr_left (fun b _ => PEspec_append thr l1 l2 a b)
  · rw [zipWith_map_same]
    refine List.map_congr_left (fun a _ => ?_)
    rw [zipWith_map_same]
    exact List.map_congr_left (fun b _ => P1spec_append l1 l2 a b)

lemma statsSpec_perm {l1 l2 : List Point} (hperm : l1.Perm l2) (nbl nc ns : Nat) (thr : ℚ) :
    statsSpec l1 nbl nc ns thr = statsSpec l2 nbl nc ns thr := by
  rw [statsSpec, statsSpec]
  simp only [Stats.mk.injEq]
  refine ⟨?_, ?_, ?_, ?_, ?_, ?_⟩
  · exact List.map_congr_left (fun i _ => by rw [Q0spec, Q0spec, hperm.countP_eq])
  · exact List.map_congr_left (fun i _ => by rw [QEspec, QEspec, hperm.countP_eq])
  · exact List.map_congr_left (fun i _ => by
      rw [Q1spec, Q1spec]
      exact ((hperm.filter (inBinBL i)).map valOf).sum_eq)
  · refine List.map_congr_left (fun a _ => List.map_congr_left (fun b _ => ?_))
    rw [P0spec, P0spec, hperm.countP_eq]
  · refine List.map_congr_left (fun a _ => List.map_congr_left (fun b _ => ?_))
    rw [PEspec, PEspec, hperm.countP_eq]
  · refine List.map_congr_left (fun a _ => List.map_congr_left (fun b _ => ?_))
    rw [P1spec, P1spec]
    exact ((hperm.filter (inCell a b)).map valOf).sum_eq

/-- C5: permuting the input point order leaves all accumulator arrays
identical, and splitting the points into two chunks, running the
kernel on each, and merging by elementwise addition gives the same
arrays as one pass over all points. -/
theorem kernel_order_independence (pts pts' l1 l2 : List Point)
    (nblbins ncapebins nsubsatbins : Nat) (prthresh : ℚ) (hperm : pts.Perm pts') :
    fast_binned_stats pts nblbins ncapebins nsubsatbins prthresh =
      fast_binned_stats pts' nblbins ncapebins nsubsatbins prthresh ∧
    (∃ s1 s2 s12,
      fast_binned_stats l1 nblbins ncapebins nsubsatbins prthresh = some s1 ∧
      fast_binned_stats l2 nblbins ncapebins nsubsatbins prthresh = some s2 ∧
      fast_binned_stats (l1 ++ l2) nblbins ncapebins nsubsatbins prthresh = some s12 ∧
      s12 = addStats s1 s2) := by
  constructor
  · rw [fast_binned_stats_eq, fast_binned_stats_eq,
      statsSpec_perm hperm nblbins ncapebins nsubsatbins prthresh]
  · exact ⟨_, _, _, fast_binned_stats_eq _ _ _ _ _, fast_binned_stats_eq _ _ _ _ _,
      fast_binned_stats_eq _ _ _ _ _,
      statsSpec_append l1 l2 nblbins ncapebins nsubsatbins prthresh⟩

/-- C5 witness: the theorem applied to two two-point lists that are
swaps of each other, and to the singleton chunks. -/
theorem kernel_order_independence_witness :
    ([pFinite, pMissing].Perm [pMissing, pFinite]) ∧
    (fast_binned_stats [pFinite, pMissing] 1 1 1 (1/4) =
       fast_binned_stats [pMissing, pFinite] 1 1 1 (1/4) ∧
     (∃ s1 s2 s12,
       fast_binned_stats [pFinite] 1 1 1 (1/4) = some s1 ∧
       fast_binned_stats [pMissing] 1 1 1 (1/4) = some s2 ∧
       fast_binned_stats ([pFinite] ++ [pMissing]) 1 1 1 (1/4) = some s12 ∧
       s12 = addStats s1 s2)) :=
  ⟨List.Perm.swap pMissing pFinite [],
    kernel_order_independence [pFinite, pMissing] [pMissing, pFinite] [pFinite] [pMissing]
      1 1 1 (1/4) (List.Perm.swap pMissing pFinite [])⟩

/-- The eight accumulator arrays of the earlier checkpoint kernel
(`calc_binned_stats` of `3_copy_calc_save_stats-checkpoint.ipynb`),
which additionally tracks the sums of squares `Q2`/`P2`. -/
structure Stats8 where
  Q0 : List ℚ
  QE : List ℚ
  Q1 : List ℚ
  Q2 : List ℚ
  P0 : List (List ℚ)
  PE : List (List ℚ)
  P1 : List (List ℚ)
  P2 : List (List ℚ)
deriving DecidableEq

/-- The six outputs the checkpoint kernel shares with the accelerated
kernel. -/
def projStats (s : Stats8) : Stats :=
  ⟨s.Q0, s.QE, s.Q1, s.P0, s.PE, s.P1⟩

/-- The 1-D block of the checkpoint loop body:
`if validbl & validpr: Q0 += 1; Q1 += prval; Q2 += prval**2;
if prval > prthresh: QE += 1`. -/
def stepBL8 (nblbins : Nat) (prthresh : ℚ) (s : Stats8) (p : Point) : Option Stats8 :=
  match p.prval with
  | some prval =>
    if 0 ≤ p.blidx ∧ p.blidx < (nblbins : Int) then do
      let q0 ← addAt s.Q0 p.blidx 1
      let q1 ← addAt s.Q1 p.blidx prval
      let q2 ← addAt s.Q2 p.blidx (prval ^ 2)
      let qe ← if prthresh < prval then addAt s.QE p.blidx 1 else pure s.QE
      pure { s with Q0 := q0, Q1 := q1, Q2 := q2, QE := qe }
    else pure s
  | none => pure s

/-- The 2-D block of the checkpoint loop body:
`if validcape & validsubsat & validpr: P0[subsatidx,capeidx] += 1; …`. -/
def step2D8 (ncapebins nsubsatbins : Nat) (prthresh : ℚ) (s : Stats8) (p : Point) :
    Option Stats8 :=
  match p.prval with
  | some prval =>
    if (0 ≤ p.capeidx ∧ p.capeidx < (ncapebins : Int)) ∧
        (0 ≤ p.subsatidx ∧ p.subsatidx < (nsubsatbins : Int)) then do
      let p0 ← addAt2 s.P0 p.subsatidx p.capeidx 1
      let p1 ← addAt2 s.P1 p.subsatidx p.capeidx prval
      let p2 ← addAt2 s.P2 p.subsatidx p.capeidx (prval ^ 2)
      let pe ← if prthresh < prval then addAt2 s.PE p.subsatidx p.capeidx 1 else pure s.PE
      pure { s with P0 := p0, P1 := p1, P2 := p2, PE := pe }
    else pure s
  | none => pure s

/-- One iteration of the checkpoint's innermost loop body. -/
def stepPoint8 (nblbins ncapebins nsubsatbins : Nat) (prthresh : ℚ) (s : Stats8) (p : Point) :
    Option Stats8 :=
  (stepBL8 nblbins prthresh s p).bind (fun s1 => step2D8 ncapebins nsubsatbins prthresh s1 p)

/-- The checkpoint kernel: the explicit triple loop over
time/lat/lon. -/
def calc_binned_stats_loop (pts3 : List (List (List Point)))
    (nblbins ncapebins nsubsatbins : Nat) (prthresh : ℚ) : Option Stats8 :=
  pts3.foldlM
    (fun acc plane => plane.foldlM
      (fun acc2 row => row.foldlM (stepPoint8 nblbins ncapebins nsubsatbins prthresh) acc2) acc)
    { Q0 := zeros1 nblbins, QE := zeros1 nblbins, Q1 := zeros1 nblbins, Q2 := zeros1 nblbins,
      P0 := zeros2 nsubsatbins ncapebins, PE := zeros2 nsubsatbins ncapebins,
      P1 := zeros2 nsubsatbins ncapebins, P2 := zeros2 nsubsatbins ncapebins }

/-- All eight accumulators have the allocated sizes. -/
def Shape8 (nblbins ncapebins nsubsatbins : Nat) (s : Stats8) : Prop :=
  s.Q0.length = nblbins ∧ s.QE.length = nblbins ∧ s.Q1.length = nblbins ∧
  s.Q2.length = nblbins ∧
  ShapeP nsubsatbins ncapebins s.P0 ∧ ShapeP nsubsatbins ncapebins s.PE ∧
  ShapeP nsubsatbins ncapebins s.P1 ∧ ShapeP nsubsatbins ncapebins s.P2

lemma stepBL8_proj (nbl : Nat) (thr : ℚ) (s : Stats8) (p : Point)
    (h0 : s.Q0.length = nbl) (hE : s.QE.length = nbl) (h1 : s.Q1.length = nbl)
    (h2 : s.Q2.length = nbl) :
    ∃ s', stepBL8 nbl thr s p = some s' ∧
      stepBL nbl thr (projStats s) p = some (projStats s') ∧
      s'.Q0.length = nbl ∧ s'.QE.length = nbl ∧ s'.Q1.length = nbl ∧ s'.Q2.length = nbl ∧
      s'.P0 = s.P0 ∧ s'.PE = s.PE ∧ s'.P1 = s.P1 ∧ s'.P2 = s.P2 := by
  cases hp : p.prval with
  | none =>
    exact ⟨s, by simp [stepBL8, hp], by simp [stepBL, projStats, hp],
      h0, hE, h1, h2, rfl, rfl, rfl, rfl⟩
  | some v =>
    by_cases hg : 0 ≤ p.blidx ∧ p.blidx < (nbl : Int)
    · have hk0 : p.blidx.toNat < s.Q0.length := by omega
      have hkE : p.blidx.toNat < s.QE.length := by omega
      have hk1 : p.blidx.toNat < s.Q1.length := by omega
      have hk2 : p.blidx.toNat < s.Q2.length := by omega
      refine ⟨{ s with
          Q0 := s.Q0.set p.blidx.toNat (s.Q0.getD p.blidx.toNat 0 + 1),
          Q1 := s.Q1.set p.blidx.toNat (s.Q1.getD p.blidx.toNat 0 + v),
          Q2 := s.Q2.set p.blidx.toNat (s.Q2.getD p.blidx.toNat 0 + v ^ 2),
          QE := if thr < v then s.QE.set p.blidx.toNat (s.QE.getD p.blidx.toNat 0 + 1)
                else s.QE }, ?_, ?_, by simp [h0], ?_, by simp [h1], by simp [h2],
        rfl, rfl, rfl, rfl⟩
      · simp only [stepBL8, hp]
        rw [if_pos hg]
        simp only [addAt_eq_some _ _ _ hg.1 hk0, addAt_eq_some _ _ _ hg.1 hk1,
          addAt_eq_some _ _ _ hg.1 hk2]
        by_cases hth : thr < v
        · simp only [if_pos hth, addAt_eq_some _ _ _ hg.1 hkE]
          rfl
        · simp only [if_neg hth]
          rfl
      · simp only [stepBL, projStats, hp]
        rw [if_pos hg]
        simp only [addAt_eq_some _ _ _ hg.1 hk0, addAt_eq_some _ _ _ hg.1 hk1]
        by_cases hth : thr < v
        · simp only [if_pos hth, addAt_eq_some _ _ _ hg.1 hkE]
          rfl
        · simp only [if_neg hth]
          rfl
      · by_cases hth : thr < v <;> simp [hth, hE]
    · exact ⟨s, by simp [stepBL8, hp, hg], by simp [stepBL, projStats, hp, hg],
        h0, hE, h1, h2, rfl, rfl, rfl, rfl⟩

lemma step2D8_proj (nc ns : Nat) (thr : ℚ) (s : Stats8) (p : Point)
    (h0 : ShapeP ns nc s.P0) (hE : ShapeP ns nc s.PE) (h1 : ShapeP ns nc s.P1)
    (h2 : ShapeP ns nc s.P2) :
    ∃ s', step2D8 nc ns thr s p = some s' ∧
      step2D nc ns thr (projStats s) p = some (projStats s') ∧
      ShapeP ns nc s'.P0 ∧ ShapeP ns nc s'.PE ∧ ShapeP ns nc s'.P1 ∧ ShapeP ns nc s'.P2 ∧
      s'.Q0 = s.Q0 ∧ s'.QE = s.QE ∧ s'.Q1 = s.Q1 ∧ s'.Q2 = s.Q2 := by
  obtain ⟨h0l, h0r⟩ := h0
  obtain ⟨hEl, hEr⟩ := hE
  obtain ⟨h1l, h1r⟩ := h1
  obtain ⟨h2l, h2r⟩ := h2
  cases hp : p.prval with
  | none =>
    exact ⟨s, by simp [step2D8, hp], by simp [step2D, projStats, hp],
      ⟨h0l, h0r⟩, ⟨hEl, hEr⟩, ⟨h1l, h1r⟩, ⟨h2l, h2r⟩, rfl, rfl, rfl, rfl⟩
  | some v =>
    by_cases hg8 : (0 ≤ p.capeidx ∧ p.capeidx < (nc : Int)) ∧
        (0 ≤ p.subsatidx ∧ p.subsatidx < (ns : Int))
    · have hg : (0 ≤ p.subsatidx ∧ p.subsatidx < (ns : Int)) ∧
          (0 ≤ p.capeidx ∧ p.capeidx < (nc : Int)) := ⟨hg8.2, hg8.1⟩
      have hs0 : p.subsatidx.toNat < s.P0.length := by omega
      have hsE : p.subsatidx.toNat < s.PE.length := by omega
      have hs1 : p.subsatidx.toNat < s.P1.length := by omega
      have hs2 : p.subsatidx.toNat < s.P2.length := by omega
      have hsns : p.subsatidx.toNat < ns := by omega
      have hc0 : p.capeidx.toNat < (s.P0.getD p.subsatidx.toNat []).length := by
        rw [h0r p.subsatidx.toNat hsns]; omega
      have hcE : p.capeidx.toNat < (s.PE.getD p.subsatidx.toNat []).length := by
        rw [hEr p.subsatidx.toNat hsns]; omega
      have hc1 : p.capeidx.toNat < (s.P1.getD p.subsatidx.toNat []).length := by
        rw [h1r p.subsatidx.toNat hsns]; omega
      have hc2 : p.capeidx.toNat < (s.P2.getD p.subsatidx.toNat []).length := by
        rw [h2r p.subsatidx.toNat hsns]; omega
      refine ⟨{ s with
          P0 := s.P0.set p.subsatidx.toNat
            ((s.P0.getD p.subsatidx.toNat []).set p.capeidx.toNat
              (getD2 s.P0 p.subsatidx.toNat p.capeidx.toNat + 1)),
          P1 := s.P1.set p.subsatidx.toNat
            ((s.P1.getD p.subsatidx.toNat []).set p.capeidx.toNat
              (getD2 s.P1 p.subsatidx.toNat p.capeidx.toNat + v)),
          P2 := s.P2.set p.subsatidx.toNat
            ((s.P2.getD p.subsatidx.toNat []).set p.capeidx.toNat
              (getD2 s.P2 p.subsatidx.toNat p.capeidx.toNat + v ^ 2)),
          PE := if thr < v then
              s.PE.set p.subsatidx.toNat
                ((s.PE.getD p.subsatidx.toNat []).set p.capeidx.toNat
                  (getD2 s.PE p.subsatidx.toNat p.capeidx.toNat + 1))
            else s.PE }, ?_, ?_, ?_, ?_, ?_, ?_, rfl, rfl, rfl, rfl⟩
      · simp only [step2D8, hp]
        rw [if_pos hg8]
        simp only [addAt2_eq_some s.P0 _ _ _ hg.1.1 hg.2.1 hs0 hc0,
          addAt2_eq_some s.P1 _ _ _ hg.1.1 hg.2.1 hs1 hc1,
          addAt2_eq_some s.P2 _ _ _ hg.1.1 hg.2.1 hs2 hc2]
        by_cases hth : thr < v
        · simp only [if_pos hth, addAt2_eq_some s.PE _ _ _ hg.1.1 hg.2.1 hsE hcE]
          rfl
        · simp only [if_neg hth]
          rfl
      · simp only [step2D, projStats, hp]
        rw [if_pos hg]
        simp only [addAt2_eq_some s.P0 _ _ _ hg.1.1 hg.2.1 hs0 hc0,
          addAt2_eq_some s.P1 _ _ _ hg.1.1 hg.2.1 hs1 hc1]
        by_cases hth : thr < v
        · simp only [if_pos hth, addAt2_eq_some s.PE _ _ _ hg.1.1 hg.2.1 hsE hcE]
          rfl
        · simp only [if_neg hth]
          rfl
      · exact shapeP_set _ _ _ _ _ ⟨h0l, h0r⟩ (by rw [List.length_set, h0r _ hsns])
      · by_cases hth : thr < v
        · simp only [if_pos hth]
          exact shapeP_set _ _ _ _ _ ⟨hEl, hEr⟩ (by rw [List.length_set, hEr _ hsns])
        · simp only [if_neg hth]
          exact ⟨hEl, hEr⟩
      · exact shapeP_set _ _ _ _ _ ⟨h1l, h1r⟩ (by rw [List.length_set, h1r _ hsns])
      · exact shapeP_set _ _ _ _ _ ⟨h2l, h2r⟩ (by rw [List.length_set, h2r _ hsns])
    · have hgneg : ¬((0 ≤ p.subsatidx ∧ p.subsatidx < (ns : Int)) ∧
          (0 ≤ p.capeidx ∧ p.capeidx < (nc : Int))) := fun hg => hg8 ⟨hg.2, hg.1⟩
      exact ⟨s, by simp [step2D8, hp, hg8], by simp [step2D, projStats, hp, hgneg],
        ⟨h0l, h0r⟩, ⟨hEl, hEr⟩, ⟨h1l, h1r⟩, ⟨h2l, h2r⟩, rfl, rfl, rfl, rfl⟩

lemma stepPoint8_proj (nbl nc ns : Nat) (thr : ℚ) (s : Stats8) (p : Point)
    (hs : Shape8 nbl nc ns s) :
    ∃ s', stepPoint8 nbl nc ns thr s p = some s' ∧ Shape8 nbl nc ns s' ∧
      stepPoint nbl nc ns thr (projStats s) p = some (projStats s') := by
  obtain ⟨hQ0, hQE, hQ1, hQ2, hP0, hPE, hP1, hP2⟩ := hs
  obtain ⟨s1, hb8, hb, k0, kE, k1, k2, e0, eE, e1, e2⟩ :=
    stepBL8_proj nbl thr s p hQ0 hQE hQ1 hQ2
  obtain ⟨s2, hd8, hd, m0, mE, m1, m2, f0, fE, f1, f2⟩ :=
    step2D8_proj nc ns thr s1 p (e0 ▸ hP0) (eE ▸ hPE) (e1 ▸ hP1) (e2 ▸ hP2)
  refine ⟨s2, ?_, ⟨f0 ▸ k0, fE ▸ kE, f1 ▸ k1, f2 ▸ k2, m0, mE, m1, m2⟩, ?_⟩
  · rw [stepPoint8, hb8]
    exact hd8
  · rw [stepPoint, hb]
    exact hd

lemma foldlM_stepPoint8_proj (nbl nc ns : Nat) (thr : ℚ) (pts : List Point) :
    ∀ s : Stats8, Shape8 nbl nc ns s →
      ∃ s', List.foldlM (stepPoint8 nbl nc ns thr) s pts = some s' ∧
        Shape8 nbl nc ns s' ∧
        List.foldlM (stepPoint nbl nc ns thr) (projStats s) pts = some (projStats s') := by
  induction pts with
  | nil => exact fun s hs => ⟨s, rfl, hs, rfl⟩
  | cons p rest ih =>
    intro s hs
    obtain ⟨s1, h1, hs1, hp1⟩ := stepPoint8_proj nbl nc ns thr s p hs
    obtain ⟨s', h', hs', hp'⟩ := ih s1 hs1
    refine ⟨s', ?_, hs', ?_⟩
    · rw [List.foldlM_cons, h1]
      exact h'
    · rw [List.foldlM_cons, hp1]
      exact hp'

lemma foldlM_flatten {σ α : Type} (f : σ → α → Option σ) (ll : List (List α)) :
    ∀ s : σ, ll.foldlM (fun acc row => row.foldlM f acc) s = ll.flatten.foldlM f s := by
  induction ll with
  | nil => intro s; rfl
  | cons row rest ih =>
    intro s
    show (row.foldlM f s).bind
        (fun s1 => rest.foldlM (fun acc row => row.foldlM f acc) s1) =
      (row ++ rest.flatten).foldlM f s
    rw [List.foldlM_append]
    show _ = (row.foldlM f s).bind (fun s1 => rest.flatten.foldlM f s1)
    cases row.foldlM f s with
    | none => rfl
    | some s1 => exact ih s1

lemma shape8_init (nbl nc ns : Nat) :
    Shape8 nbl nc ns
      { Q0 := zeros1 nbl, QE := zeros1 nbl, Q1 := zeros1 nbl, Q2 := zeros1 nbl,
        P0 := zeros2 ns nc, PE := zeros2 ns nc, P1 := zeros2 ns nc, P2 := zeros2 ns nc } := by
  refine ⟨by simp [zeros1], by simp [zeros1], by simp [zeros1], by simp [zeros1],
    ?_, ?_, ?_, ?_⟩ <;>
    exact ⟨by simp [zeros2], fun a ha => by
      rw [zeros2, getD_of_lt _ _ _ (by simpa using ha), List.getElem_replicate,
        List.length_replicate]⟩

/-- C6: on the same per-point index arrays and precipitation values
(in row-major order) and the same bin counts and threshold, the
earlier explicit triple-loop kernel and the accelerated flat kernel
produce identical values for the shared outputs `Q0`, `QE`, `Q1`,
`P0`, `PE`, `P1`. -/
theorem loop_kernel_equivalence (pts3 : List (List (List Point)))
    (nblbins ncapebins nsubsatbins : Nat) (prthresh : ℚ) :
    (calc_binned_stats_loop pts3 nblbins ncapebins nsubsatbins prthresh).map projStats =
      fast_binned_stats pts3.flatten.flatten nblbins ncapebins nsubsatbins prthresh := by
  obtain ⟨s', h8, hs', hproj⟩ :=
    foldlM_stepPoint8_proj nblbins ncapebins nsubsatbins prthresh pts3.flatten.flatten
      _ (shape8_init nblbins ncapebins nsubsatbins)
  have e1 : pts3.foldlM
      (fun acc plane => plane.foldlM
        (fun acc2 row => row.foldlM (stepPoint8 nblbins ncapebins nsubsatbins prthresh) acc2)
        acc)
      { Q0 := zeros1 nblbins, QE := zeros1 nblbins, Q1 := zeros1 nblbins, Q2 := zeros1 nblbins,
        P0 := zeros2 nsubsatbins ncapebins, PE := zeros2 nsubsatbins ncapebins,
        P1 := zeros2 nsubsatbins ncapebins, P2 := zeros2 nsubsatbins ncapebins } =
      pts3.flatten.foldlM
        (fun acc2 row => row.foldlM (stepPoint8 nblbins ncapebins nsubsatbins prthresh) acc2)
        { Q0 := zeros1 nblbins, QE := zeros1 nblbins, Q1 := zeros1 nblbins, Q2 := zeros1 nblbins,
          P0 := zeros2 nsubsatbins ncapebins, PE := zeros2 nsubsatbins ncapebins,
          P1 := zeros2 nsubsatbins ncapebins, P2 := zeros2 nsubsatbins ncapebins } :=
    foldlM_flatten _ pts3 _
  have e2 : pts3.flatten.foldlM
      (fun acc2 row => row.foldlM (stepPoint8 nblbins ncapebins nsubsatbins prthresh) acc2)
      { Q0 := zeros1 nblbins, QE := zeros1 nblbins, Q1 := zeros1 nblbins, Q2 := zeros1 nblbins,
        P0 := zeros2 nsubsatbins ncapebins, PE := zeros2 nsubsatbins ncapebins,
        P1 := zeros2 nsubsatbins ncapebins, P2 := zeros2 nsubsatbins ncapebins } =
      pts3.flatten.flatten.foldlM (stepPoint8 nblbins ncapebins nsubsatbins prthresh)
        { Q0 := zeros1 nblbins, QE := zeros1 nblbins, Q1 := zeros1 nblbins, Q2 := zeros1 nblbins,
          P0 := zeros2 nsubsatbins ncapebins, PE := zeros2 nsubsatbins ncapebins,
          P1 := zeros2 nsubsatbins ncapebins, P2 := zeros2 nsubsatbins ncapebins } :=
    foldlM_flatten _ pts3.flatten _
  rw [calc_binned_stats_loop, e1, e2, h8, fast_binned_stats]
  exact hproj.symm

/-- A latitude/longitude bounding box, one entry of `REGIONS`. -/
structure Region where
  latmin : ℚ
  latmax : ℚ
  lonmin : ℚ
  lonmax : ℚ
deriving DecidableEq

/-- One space-time sample of the input dataset: coordinates, the
calendar month of its time stamp, the three diagnostic fields and the
precipitation value (`none` = non-finite). -/
structure Sample where
  lat : ℚ
  lon : ℚ
  month : Nat
  bl : ℚ
  cape : ℚ
  subsat : ℚ
  pr : Option ℚ
deriving DecidableEq

/-- The three bin parameter sets of `BINPARAMS`. -/
structure BinConfig where
  bl : BinParams
  cape : BinParams
  subsat : BinParams
deriving DecidableEq

/-- `get_region`: the samples inside the region's inclusive
latitude/longitude bounds (`data.sel(lat=slice(latmin, latmax),
lon=slice(lonmin, lonmax))` on ascending coordinates). -/
def get_region (data : List Sample) (r : Region) : List Sample :=
  data.filter (fun x => decide (r.latmin ≤ x.lat ∧ x.lat ≤ r.latmax ∧
    r.lonmin ≤ x.lon ∧ x.lon ≤ r.lonmax))

/-- `data.sel(time=data.time.dt.month==month)`. -/
def get_month (data : List Sample) (m : Nat) : List Sample :=
  data.filter (fun x => x.month == m)

/-- The per-sample index computation of `calc_binned_stats`. -/
def toPoint (cfg : BinConfig) (x : Sample) : Point where
  blidx := blidxOf cfg.bl x.bl
  capeidx := capeidxOf cfg.cape x.cape
  subsatidx := subsatidxOf cfg.subsat x.subsat
  prval := x.pr

/-- `calc_binned_stats` (V2_4 notebook): derive the bin edges, compute
the index arrays, and run the accelerated kernel with the edge counts
as the bin counts. -/
def calc_binned_stats (data : List Sample) (cfg : BinConfig) (prthresh : ℚ) : Option Stats :=
  fast_binned_stats (data.map (toPoint cfg))
    (get_bin_edges cfg.bl).length (get_bin_edges cfg.cape).length
    (get_bin_edges cfg.subsat).length prthresh

/-- `process_by_subregion`: the nested region/month loop, appending
each month's statistics record and then each region's list of records,
in configured order. -/
def process_by_subregion (ds : List Sample) (months : List Nat) (regions : List Region)
    (cfg : BinConfig) (prthresh : ℚ) : List (List (Option Stats)) :=
  regions.foldl
    (fun regionstatslist region =>
      regionstatslist ++
        [months.foldl
          (fun monthstatslist month =>
            monthstatslist ++
              [calc_binned_stats (get_month (get_region ds region) month) cfg prthresh])
          []])
    []

lemma foldl_append_eq_map {α β : Type} (f : α → β) (l : List α) :
    ∀ init : List β, l.foldl (fun acc x => acc ++ [f x]) init = init ++ l.map f := by
  induction l with
  | nil => intro init; simp
  | cons x rest ih =>
    intro init
    rw [List.foldl_cons, ih, List.map_cons]
    simp

lemma process_eq_map (ds : List Sample) (months : List Nat) (regions : List Region)
    (cfg : BinConfig) (prthresh : ℚ) :
    process_by_subregion ds months regions cfg prthresh =
      regions.map (fun region => months.map (fun month =>
        calc_binned_stats (get_month (get_region ds region) month) cfg prthresh)) := by
  rw [process_by_subregion, foldl_append_eq_map, List.nil_append]
  apply List.map_congr_left
  intro region _
  rw [foldl_append_eq_map, List.nil_append]

/-- C4: the aggregated product has one row per configured region (in
order) and, within it, one record per configured month (in order), and
the `(r, m)` slice is exactly the record the builder produces in
isolation on the subset of the data restricted to region `r`'s
bounding box and calendar month `m`. -/
theorem aggregator_slices (ds : List Sample) (months : List Nat) (regions : List Region)
    (cfg : BinConfig) (prthresh : ℚ) (r m : Nat)
    (hr : r < regions.length) (hm : m < months.length) :
    (process_by_subregion ds months regions cfg prthresh).length = regions.length ∧
    ((process_by_subregion ds months regions cfg prthresh).getD r []).length =
      months.length ∧
    ((process_by_subregion ds months regions cfg prthresh).getD r []).getD m none =
      calc_binned_stats (get_month (get_region ds regions[r]) months[m]) cfg prthresh := by
  refine ⟨?_, ?_, ?_⟩
  · rw [process_eq_map, List.length_map]
  · rw [process_eq_map, getD_of_lt _ [] r (by simpa using hr), List.getElem_map,
      List.length_map]
  · rw [process_eq_map, getD_of_lt _ [] r (by simpa using hr), List.getElem_map,
      getD_of_lt _ none m (by simpa using hm), List.getElem_map]

/-- A first test region (lat 0–10, lon 0–10). -/
def regionA : Region := ⟨0, 10, 0, 10⟩

/-- A second test region (lat 20–30, lon 20–30). -/
def regionB : Region := ⟨20, 30, 20, 30⟩

/-- The configured bin parameters of the notebook. -/
def cfg0 : BinConfig := ⟨⟨-(3:ℚ)/5, 1/10, 1/400⟩, ⟨-70, 20, 1⟩, ⟨-20, 70, 1⟩⟩

/-- A two-sample dataset: one point in each test region, in months 6
and 7. -/
def sampleData : List Sample :=
  [⟨5, 5, 6, 0, 0, 0, some 1⟩, ⟨25, 25, 7, 0, 0, 0, some 2⟩]

/-- C4 witness: the theorem applied to the two-region, three-month
configuration at slice (0, 1). -/
theorem aggregator_slices_witness :
    (0 < [regionA, regionB].length ∧ 1 < [6, 7, 8].length) ∧
    ((process_by_subregion sampleData [6, 7, 8] [regionA, regionB] cfg0 (1/4)).length =
       [regionA, regionB].length ∧
     ((process_by_subregion sampleData [6, 7, 8] [regionA, regionB] cfg0 (1/4)).getD 0 []).length =
       [6, 7, 8].length ∧
     ((process_by_subregion sampleData [6, 7, 8] [regionA, regionB] cfg0 (1/4)).getD 0 []).getD
         1 none =
       calc_binned_stats (get_month (get_region sampleData [regionA, regionB][0]) [6, 7, 8][1])
         cfg0 (1/4)) :=
  ⟨⟨by decide, by decide⟩,
    aggregator_slices sampleData [6, 7, 8] [regionA, regionB] cfg0 (1/4) 0 1
      (by decide) (by decide)⟩

end MonsoonPod
